import Mathlib

/-!
Verification development for the tokku betting core: the selection codec,
odds engine, bet-confirmation service (`src/server/src/features/bets/bets.service.ts`)
and the settlement worker (`src/server/src/jobs/workers/bet-settlement.worker.ts`).

Modelling conventions:
* JS numbers carried by selections are modelled as `Int` (every validated
  selection field is integral); monetary amounts (`stake`, `odds`, `payout`)
  and the odds arithmetic are modelled as `Rat`, the exact idealisation of
  the JS floating-point arithmetic (all concrete values involved are small
  enough that the JS computation is exact).
* Selections are modelled as the tagged union the spec prescribes (one
  variant per market type); a JS object field that can be `undefined` is an
  `Option`.  Applying a market type to a selection of a different variant
  is treated as invalid input (outside the modelled domain).
* Code that throws is modelled with `Except String`; the carried string is
  the thrown message (needed because the settlement worker classifies
  errors by substring matching on the message).
-/

namespace Tokku

/-- The parity values accepted for the even-odd market (strings even/odd). -/
inductive Parity where
  | even
  | odd
deriving DecidableEq, Repr

/-- The entropy sources accepted for the entropy-battle market. -/
inductive EntropySource where
  | tee
  | chain
  | sensor
deriving DecidableEq, Repr

/-- Bet selections, the tagged union with one variant per market type.
For the shape market, `shape`, `color` and `size` may each be unset
(`undefined` in the source).  The community variant carries the optional
`tolerance` field consulted by `calculateOdds`. -/
inductive Selection where
  | range (min max : Int)
  | single (value : Int)
  | parity (value : Parity)
  | digit (value : Int)
  | modulo (value : Int)
  | pattern (patternId : Int)
  | shape (shape color size : Option Int)
  | entropy (source : EntropySource)
  | streak (target : Int)
  | community (byte : Int) (tolerance : Option Int)
deriving DecidableEq, Repr

/-- Market types.  The ten named constructors are the members of the
`MarketType` enum; `other` stands for any string that is not a member of
the enum (market type is a plain string in the source, so switch
statements can receive unknown values and fall to their default case). -/
inductive MarketType where
  | pickRange
  | evenOdd
  | lastDigit
  | moduloThree
  | patternOfDay
  | shapeColor
  | entropyBattle
  | streakMeter
  | communitySeed
  | jackpot
  | other
deriving DecidableEq, Repr

/-- The four-field on-chain selection record produced by `encodeSelection`. -/
structure Encoded where
  kind : Int
  a : Int
  b : Int
  c : Int
deriving DecidableEq, Repr

/-- `BetsService.encodeSelection` (bets.service.ts lines 178-204).
Returns `Except` because the default case throws a `ValidationError`.
In the `PICK_RANGE` case the source tests `selection.type === range` and
otherwise emits kind 1 with `a = selection.value`; under the tagged-union
idealisation the non-range, non-single variants carry no `value` field
(the source would emit `undefined`), modelled as 0 — such calls are always
rejected by `validateSelection` first. -/
def encodeSelection (sel : Selection) (mt : MarketType) : Except String Encoded :=
  match mt with
  | .pickRange =>
    match sel with
    | .range mn mx => .ok ⟨0, mn, mx, 0⟩
    | .single v => .ok ⟨1, v, 0, 0⟩
    | _ => .ok ⟨1, 0, 0, 0⟩
  | .evenOdd =>
    match sel with
    | .parity .even => .ok ⟨2, 0, 0, 0⟩
    | _ => .ok ⟨2, 1, 0, 0⟩
  | .lastDigit =>
    match sel with
    | .digit v => .ok ⟨3, v, 0, 0⟩
    | _ => .ok ⟨3, 0, 0, 0⟩
  | .moduloThree =>
    match sel with
    | .modulo v => .ok ⟨4, v, 0, 0⟩
    | _ => .ok ⟨4, 0, 0, 0⟩
  | .patternOfDay =>
    match sel with
    | .pattern pid => .ok ⟨5, (if pid = 0 then 0 else pid), 0, 0⟩
    | _ => .ok ⟨5, 0, 0, 0⟩
  | .shapeColor =>
    match sel with
    | .shape s c z => .ok ⟨6, s.getD 255, c.getD 255, z.getD 255⟩
    | _ => .ok ⟨6, 255, 255, 255⟩
  | .entropyBattle =>
    match sel with
    | .entropy .tee => .ok ⟨7, 0, 0, 0⟩
    | .entropy .chain => .ok ⟨7, 1, 0, 0⟩
    | .entropy .sensor => .ok ⟨7, 2, 0, 0⟩
    | _ => .ok ⟨7, 0, 0, 0⟩
  | .streakMeter =>
    match sel with
    | .streak t => .ok ⟨8, t, 0, 0⟩
    | _ => .ok ⟨8, 0, 0, 0⟩
  | .communitySeed =>
    match sel with
    | .community b _ => .ok ⟨9, b, 0, 0⟩
    | _ => .ok ⟨9, 0, 0, 0⟩
  | _ => .error ("Invalid market type")

/-- `BetsService.decodeSelection` (bets.service.ts lines 249-275).
Total: the default case returns an empty object, modelled here as a shape
selection with all fields unset (no better image of the empty object
exists in the tagged union; no claim depends on this corner). -/
def decodeSelection (e : Encoded) (mt : MarketType) : Selection :=
  match mt with
  | .pickRange => if e.kind = 0 then .range e.a e.b else .single e.a
  | .evenOdd => .parity (if e.a = 0 then .even else .odd)
  | .lastDigit => .digit e.a
  | .moduloThree => .modulo e.a
  | .patternOfDay => .pattern e.a
  | .shapeColor => .shape (some e.a) (some e.b) (some e.c)
  | .entropyBattle =>
    .entropy (if e.a = 0 then .tee else if e.a = 1 then .chain else if e.a = 2 then .sensor else .tee)
  | .streakMeter => .streak e.a
  | .communitySeed => .community e.a none
  | _ => .shape none none none

/-- The `validByte` helper of `validateSelection` for shape fields:
unset, or an integer in [0,255]. -/
def validByte (n : Option Int) : Bool :=
  match n with
  | none => true
  | some v => 0 ≤ v && v ≤ 255

/-- `BetsService.validateSelection` (bets.service.ts lines 277-320),
with the configured `MAX_STREAK_TARGET` as a parameter.  The default
case (unknown market type, including `JACKPOT`, which has no case)
throws.  Under the tagged-union idealisation a selection of a variant
not belonging to the market type is invalid. -/
def validateSelection (maxStreak : Int) (sel : Selection) (mt : MarketType) : Except String Unit :=
  match mt with
  | .pickRange =>
    match sel with
    | .range mn mx =>
      if mn < 1 || mx > 100 || mn > mx then .error ("Invalid range selection") else .ok ()
    | .single v =>
      if v < 1 || v > 100 then .error ("Invalid single number selection") else .ok ()
    | _ => .error ("Invalid bet selection format")
  | .evenOdd =>
    match sel with
    | .parity _ => .ok ()
    | _ => .error ("Invalid parity selection")
  | .lastDigit =>
    match sel with
    | .digit v => if v < 0 || v > 9 then .error ("Invalid digit selection") else .ok ()
    | _ => .error ("Invalid bet selection format")
  | .moduloThree =>
    match sel with
    | .modulo v => if v < 0 || v > 2 then .error ("Invalid modulo selection") else .ok ()
    | _ => .error ("Invalid bet selection format")
  | .patternOfDay =>
    match sel with
    | .pattern pid =>
      if pid < 0 || pid > 6 then .error ("Invalid pattern selection") else .ok ()
    | _ => .error ("Invalid bet selection format")
  | .shapeColor =>
    match sel with
    | .shape s c z =>
      if validByte s && validByte c && validByte z then .ok ()
      else .error ("Invalid shape selection")
    | _ => .error ("Invalid bet selection format")
  | .entropyBattle =>
    match sel with
    | .entropy _ => .ok ()
    | _ => .error ("Invalid entropy source selection")
  | .streakMeter =>
    match sel with
    | .streak t =>
      if t < 2 || t > maxStreak then .error ("Invalid streak target") else .ok ()
    | _ => .error ("Invalid bet selection format")
  | .communitySeed =>
    match sel with
    | .community b _ =>
      if b < 0 || b > 255 then .error ("Invalid community seed byte") else .ok ()
    | _ => .error ("Invalid bet selection format")
  | _ => .error ("Invalid market type")

/-! ### Odds engine (`BetsService.calculateOdds`, bets.service.ts lines 206-247) -/

/-- `Math.min(Math.max(houseEdgeBps, 0), 10000)` — the clamp at the top of
`calculateOdds`. -/
def clampEdge (e : ℚ) : ℚ := min (max e 0) 10000

/-- `edgeFactor = 10000 / (10000 + edge)` with the clamped edge. -/
def edgeFactor (e : ℚ) : ℚ := 10000 / (10000 + clampEdge e)

/-- `Math.floor(m * 100) / 100` — round down to two decimal places. -/
def floor2 (m : ℚ) : ℚ := (⌊m * 100⌋ : ℚ) / 100

/-- The `fromEqualBins` closure: it captures the already-computed
`edgeFactor`, passed here as the first argument. -/
def fromEqualBins (f n : ℚ) : ℚ := max 1 (floor2 (n * f))

/-- The `fromProbability` closure (first argument is the captured
`edgeFactor`).  `!num || !den` is zero-testing on rationals. -/
def fromProbability (f num den : ℚ) : ℚ :=
  if num = 0 || den = 0 then 0 else max 1 (floor2 (den / num * f))

/-- `selection.shape` as read by `calculateOdds` (undefined on other variants). -/
def Selection.shapeField : Selection → Option Int
  | .shape s _ _ => s
  | _ => none

/-- `selection.color` as read by `calculateOdds`. -/
def Selection.colorField : Selection → Option Int
  | .shape _ c _ => c
  | _ => none

/-- `selection.size` as read by `calculateOdds`. -/
def Selection.sizeField : Selection → Option Int
  | .shape _ _ z => z
  | _ => none

/-- `selection.patternId` when it is a number (undefined otherwise). -/
def Selection.patternIdField : Selection → Option Int
  | .pattern p => some p
  | _ => none

/-- `selection.tolerance ?? selection.t` for the community market (the `t`
alias is folded into the single optional field). -/
def Selection.toleranceField : Selection → Option Int
  | .community _ t => t
  | _ => none

/-- The shape-market numerator: `(shape undefined ? 4 : 1) * (color undefined ? 6 : 1)
* (size undefined ? 3 : 1)`. -/
def shapeMatched (sel : Selection) : ℚ :=
  (if sel.shapeField = none then 4 else 1) *
    (if sel.colorField = none then 6 else 1) *
    (if sel.sizeField = none then 3 else 1)

/-- The pattern-frequency table `[168, 10, 29, 52, 73, 437, 231]`. -/
def patternCounts : List Int := [168, 10, 29, 52, 73, 437, 231]

/-- Pattern-market numerator: `counts[idx] !== undefined ? counts[idx] : counts[6]`
with `idx = typeof patternId === number ? patternId : 6`. -/
def patternNum (sel : Selection) : Int :=
  let idx := sel.patternIdField.getD 6
  if 0 ≤ idx ∧ idx < 7 then patternCounts.getD idx.toNat 231 else 231

/-- Community tolerance after `Math.max(0, Math.min(8, tolerance ?? 0))`. -/
def commT (sel : Selection) : Int := max 0 (min 8 (sel.toleranceField.getD 0))

/-- Community numerator: the sum of `binomial(8, k)` for `k = 0..t` (the
source computes each binomial with exact integer products for these sizes). -/
def commNum (t : Int) : Int :=
  (List.range 9).foldl (fun (acc : Int) (k : Nat) => if (k : Int) ≤ t then acc + (Nat.choose 8 k : Int) else acc) 0

/-- The body of `calculateOdds` after `edgeFactor` has been computed
(bets.service.ts lines 212-246); `f` is the captured `edgeFactor`.
The source switch has no `STREAK_METER` case, so that market type falls to
the default `fromEqualBins(2)` together with unknown market types. -/
def calculateOddsF (sel : Selection) (mt : MarketType) (f : ℚ) : ℚ :=
  match mt with
  | .pickRange =>
    match sel with
    | .range mn mx =>
      let width := mx - mn + 1
      if 0 < width ∧ (100 : Int) % width = 0 then fromEqualBins f ((100 : ℚ) / (width : ℚ))
      else fromProbability f (width : ℚ) 100
    | .single _ => fromEqualBins f 100
    | _ => fromEqualBins f 2
  | .evenOdd => fromEqualBins f 2
  | .lastDigit => fromEqualBins f 10
  | .moduloThree => fromEqualBins f 3
  | .jackpot => fromEqualBins f 100
  | .entropyBattle => fromEqualBins f 3
  | .shapeColor => fromProbability f (shapeMatched sel) 72
  | .patternOfDay => fromProbability f (patternNum sel : ℚ) 1000
  | .communitySeed => fromProbability f (commNum (commT sel) : ℚ) 256
  | _ => fromEqualBins f 2

/-- `BetsService.calculateOdds` (bets.service.ts lines 206-247). -/
def calculateOdds (sel : Selection) (mt : MarketType) (houseEdgeBps : ℚ) : ℚ :=
  calculateOddsF sel mt (edgeFactor houseEdgeBps)

/-! ### Settlement win-check (`checkBetWon`, bet-settlement.worker.ts lines 227-279) -/

/-- Round outcomes: the tagged union stored on the round
(`Numeric` / `Shape` / `Pattern` / `Entropy` / `Community`). -/
inductive Outcome where
  | numeric (value : Int)
  | shapeOut (shape color : Int)
  | patternOut (patternId : Int)
  | entropyOut (winner : Int)
  | communityOut (finalByte : Int)
deriving DecidableEq, Repr

/-- `parseEntropySource` (worker lines 272-279); the `-1` default is
unreachable for the closed source type. -/
def parseEntropySource : EntropySource → Int
  | .tee => 0
  | .chain => 1
  | .sensor => 2

/-- `!selection.color` on an optional number: true when the field is
undefined or when its value is the falsy number 0. -/
def colorFree : Option Int → Bool
  | none => true
  | some v => v == 0

/-- `checkBetWon` (worker lines 227-270).  The source function takes a
third `marketType` argument that its body never reads, so it is omitted
here.  JS `%` is the truncated remainder, `Int.tmod`. -/
def checkBetWon (sel : Selection) (oc : Outcome) : Bool :=
  match oc with
  | .numeric v =>
    match sel with
    | .range mn mx => mn ≤ v && v ≤ mx
    | .single s => v == s
    | .parity p => (Int.tmod v 2 == 0 && p == .even) || (Int.tmod v 2 == 1 && p == .odd)
    | .digit d => Int.tmod v 10 == d
    | .modulo m => Int.tmod v 3 == m
    | _ => false
  | .shapeOut os ocolor =>
    match sel with
    | .shape s c _ => s == some os && (colorFree c || c == some ocolor)
    | _ => false
  | .patternOut pid =>
    match sel with
    | .pattern p => p == pid
    | _ => false
  | .entropyOut w =>
    match sel with
    | .entropy src => w == parseEntropySource src
    | _ => false
  | .communityOut fb =>
    match sel with
    | .community b _ => b == fb
    | _ => false

/-! ### Error classifiers (worker lines 205-225) -/

/-- The characters of a string, lowercased (`toLowerCase`; the error
messages involved are ASCII). -/
def lowerChars (s : String) : List Char := s.data.map Char.toLower

/-- Prefix test on character lists. -/
def hasPrefixC : List Char → List Char → Bool
  | _, [] => true
  | [], _ :: _ => false
  | c :: cs, p :: ps => c == p && hasPrefixC cs ps

/-- Substring occurrence test (`String.prototype.includes`) on character
lists, written by structural recursion so that concrete instances
evaluate inside the kernel. -/
def containsC (hay pat : List Char) : Bool :=
  match hay with
  | [] => pat.isEmpty
  | _ :: t => hasPrefixC hay pat || containsC t pat

/-- `isRetryableSettlementError` (worker lines 205-215). -/
def isRetryableSettlementError (message : String) : Bool :=
  let msg := lowerChars message
  containsC msg (("outcomenotrevealed").data) ||
  containsC msg (("outcome not revealed").data) ||
  containsC msg (("0x1787").data) ||
  containsC msg (("outcome not available on base").data) ||
  containsC msg (("instruction modified data of an account it does not own").data) ||
  containsC msg (("still delegated").data)

/-- `isOnchainTxError` (worker lines 217-225). -/
def isOnchainTxError (message : String) : Bool :=
  let msg := lowerChars message
  containsC msg (("simulation failed").data) ||
  containsC msg (("transaction simulation failed").data) ||
  containsC msg (("sendtransactionerror").data) ||
  containsC msg (("custom program error").data)

/-! ### Codec round-trip (claim C2) -/

/-- A selection with no unset optional field: every shape field present,
and no community tolerance carried (the encoded record has no slot for it). -/
def fullySpecified : Selection → Bool
  | .shape s c z => s.isSome && c.isSome && z.isSome
  | .community _ t => t.isNone
  | _ => true

/-- C2 (corrected): the claimed unconditional round-trip law fails.  The
shape selection with `shape = 0` and `color`, `size` unset passes
`validateSelection`, but `encodeSelection` stores the unset fields as 255
and `decodeSelection` returns them as explicitly set, so the decoded
selection differs from the original. -/
theorem c2_counterexample :
    validateSelection 10 (Selection.shape (some 0) none none) MarketType.shapeColor = .ok () ∧
    encodeSelection (Selection.shape (some 0) none none) MarketType.shapeColor =
      .ok ⟨6, 0, 255, 255⟩ ∧
    decodeSelection ⟨6, 0, 255, 255⟩ MarketType.shapeColor ≠
      Selection.shape (some 0) none none := by
  refine ⟨rfl, rfl, by decide⟩

/-- C2 (amended): for every market type and every selection that passes
`validateSelection` and has no unset optional field (all shape fields
present, no community tolerance), `encodeSelection` succeeds and
`decodeSelection` inverts it exactly. -/
theorem c2_roundtrip_amended (maxStreak : Int) (sel : Selection) (mt : MarketType)
    (hv : validateSelection maxStreak sel mt = .ok ())
    (hf : fullySpecified sel = true) :
    ∃ enc, encodeSelection sel mt = .ok enc ∧ decodeSelection enc mt = sel := by
  cases sel with
  | range mn mx =>
    cases mt <;> simp_all [validateSelection] <;>
      exact ⟨_, rfl, by simp [decodeSelection]⟩
  | single v =>
    cases mt <;> simp_all [validateSelection] <;>
      exact ⟨_, rfl, by simp [decodeSelection]⟩
  | parity v =>
    cases mt <;> simp_all [validateSelection] <;> cases v <;>
      exact ⟨_, rfl, by simp [decodeSelection]⟩
  | digit v =>
    cases mt <;> simp_all [validateSelection] <;>
      exact ⟨_, rfl, by simp [decodeSelection]⟩
  | modulo v =>
    cases mt <;> simp_all [validateSelection] <;>
      exact ⟨_, rfl, by simp [decodeSelection]⟩
  | pattern pid =>
    cases mt <;> simp_all [validateSelection]
    refine ⟨_, rfl, ?_⟩
    by_cases h0 : pid = 0 <;> simp [decodeSelection, h0]
  | shape s c z =>
    cases mt <;> simp_all [validateSelection, fullySpecified]
    obtain ⟨sv, rfl⟩ := Option.isSome_iff_exists.mp hf.1.1
    obtain ⟨cv, rfl⟩ := Option.isSome_iff_exists.mp hf.1.2
    obtain ⟨zv, rfl⟩ := Option.isSome_iff_exists.mp hf.2
    exact ⟨_, rfl, by simp [decodeSelection, encodeSelection]⟩
  | entropy src =>
    cases mt <;> simp_all [validateSelection] <;> cases src <;>
      exact ⟨_, rfl, by simp [decodeSelection]⟩
  | streak t =>
    cases mt <;> simp_all [validateSelection] <;>
      exact ⟨_, rfl, by simp [decodeSelection]⟩
  | community b t =>
    cases mt <;> simp_all [validateSelection, fullySpecified]
    subst hf
    exact ⟨_, rfl, by simp [decodeSelection]⟩

/-- Witness for C2 (amended) at a concrete input. -/
theorem c2_roundtrip_amended_witness :
    validateSelection 10 (Selection.range 1 50) MarketType.pickRange = .ok () ∧
    fullySpecified (Selection.range 1 50) = true ∧
    ∃ enc, encodeSelection (Selection.range 1 50) MarketType.pickRange = .ok enc ∧
      decodeSelection enc MarketType.pickRange = Selection.range 1 50 :=
  ⟨rfl, rfl, c2_roundtrip_amended 10 (Selection.range 1 50) MarketType.pickRange rfl rfl⟩

/-! ### Odds monotonicity and clamping (claim C7) -/

theorem clampEdge_mem (e : ℚ) : 0 ≤ clampEdge e ∧ clampEdge e ≤ 10000 :=
  ⟨le_min (le_max_right e 0) (by norm_num), min_le_right _ _⟩

theorem clampEdge_idem (e : ℚ) : clampEdge (clampEdge e) = clampEdge e := by
  have h := clampEdge_mem e
  rw [clampEdge, max_eq_left h.1, min_eq_left h.2]

theorem clampEdge_mono : Monotone clampEdge := fun _ _ h =>
  min_le_min (max_le_max h le_rfl) le_rfl

theorem edgeFactor_pos (e : ℚ) : 0 < edgeFactor e := by
  unfold edgeFactor
  have := (clampEdge_mem e).1
  apply div_pos (by norm_num)
  linarith

theorem edgeFactor_antitone {e1 e2 : ℚ} (h : e1 ≤ e2) : edgeFactor e2 ≤ edgeFactor e1 := by
  unfold edgeFactor
  have h1 := (clampEdge_mem e1).1
  have h2 := clampEdge_mono h
  exact div_le_div_of_nonneg_left (by norm_num) (by linarith) (by linarith)

theorem floor2_mono {a b : ℚ} (h : a ≤ b) : floor2 a ≤ floor2 b := by
  unfold floor2
  have h1 : (⌊a * 100⌋ : ℤ) ≤ ⌊b * 100⌋ := Int.floor_mono (by nlinarith)
  have h2 : ((⌊a * 100⌋ : ℤ) : ℚ) ≤ ((⌊b * 100⌋ : ℤ) : ℚ) := by exact_mod_cast h1
  linarith

theorem floor2_nonpos {a : ℚ} (h : a ≤ 0) : floor2 a ≤ 0 := by
  unfold floor2
  have h1 : (⌊a * 100⌋ : ℤ) ≤ 0 := Int.floor_nonpos (by nlinarith)
  have h2 : ((⌊a * 100⌋ : ℤ) : ℚ) ≤ 0 := by exact_mod_cast h1
  linarith

theorem fromEqualBins_mono {f1 f2 n : ℚ} (hn : 0 ≤ n) (h : f2 ≤ f1) :
    fromEqualBins f2 n ≤ fromEqualBins f1 n :=
  max_le_max le_rfl (floor2_mono (mul_le_mul_of_nonneg_left h hn))

theorem fromProbability_anti {f1 f2 num den : ℚ} (h0 : 0 ≤ f2) (h : f2 ≤ f1) :
    fromProbability f2 num den ≤ fromProbability f1 num den := by
  unfold fromProbability
  split
  · exact le_rfl
  · rcases le_or_lt (den / num) 0 with hr | hr
    · have e2 : max 1 (floor2 (den / num * f2)) = 1 :=
        max_eq_left (le_trans (floor2_nonpos (by nlinarith)) (by norm_num))
      have e1 : max 1 (floor2 (den / num * f1)) = 1 :=
        max_eq_left (le_trans (floor2_nonpos (by nlinarith)) (by norm_num))
      rw [e1, e2]
    · exact max_le_max le_rfl (floor2_mono (mul_le_mul_of_nonneg_left h hr.le))

theorem calculateOddsF_mono (sel : Selection) (mt : MarketType) {f1 f2 : ℚ}
    (h0 : 0 ≤ f2) (h : f2 ≤ f1) : calculateOddsF sel mt f2 ≤ calculateOddsF sel mt f1 := by
  have hbin : ∀ n : ℚ, 0 ≤ n → fromEqualBins f2 n ≤ fromEqualBins f1 n :=
    fun _ hn => fromEqualBins_mono hn h
  have hpr : ∀ num den : ℚ, fromProbability f2 num den ≤ fromProbability f1 num den :=
    fun _ _ => fromProbability_anti h0 h
  cases mt
  case pickRange =>
    cases sel
    case range mn mx =>
      show (if 0 < mx - mn + 1 ∧ (100 : Int) % (mx - mn + 1) = 0 then
          fromEqualBins f2 ((100 : ℚ) / ((mx - mn + 1 : Int) : ℚ))
        else fromProbability f2 ((mx - mn + 1 : Int) : ℚ) 100) ≤
        (if 0 < mx - mn + 1 ∧ (100 : Int) % (mx - mn + 1) = 0 then
          fromEqualBins f1 ((100 : ℚ) / ((mx - mn + 1 : Int) : ℚ))
        else fromProbability f1 ((mx - mn + 1 : Int) : ℚ) 100)
      by_cases hc : 0 < mx - mn + 1 ∧ (100 : Int) % (mx - mn + 1) = 0
      · rw [if_pos hc, if_pos hc]
        exact hbin _ (div_nonneg (by norm_num) (by exact_mod_cast hc.1.le))
      · rw [if_neg hc, if_neg hc]
        exact hpr _ _
    case single v => exact hbin 100 (by norm_num)
    all_goals exact hbin 2 (by norm_num)
  case evenOdd => exact hbin 2 (by norm_num)
  case lastDigit => exact hbin 10 (by norm_num)
  case moduloThree => exact hbin 3 (by norm_num)
  case jackpot => exact hbin 100 (by norm_num)
  case entropyBattle => exact hbin 3 (by norm_num)
  case shapeColor => exact hpr _ _
  case patternOfDay => exact hpr _ _
  case communitySeed => exact hpr _ _
  case streakMeter => exact hbin 2 (by norm_num)
  case other => exact hbin 2 (by norm_num)

/-- C7 (corrected): the strict part of the claim fails.  For the parity
selection, raising the edge from 1 to 2 basis points leaves the multiplier
unchanged at 1.99, which is above the 1.0 floor, because of the two-decimal
floor rounding. -/
theorem c7_counterexample :
    (1 : ℚ) ≤ 2 ∧ (1 : ℚ) ≠ 2 ∧
    calculateOdds (Selection.parity .even) MarketType.evenOdd 2 =
      calculateOdds (Selection.parity .even) MarketType.evenOdd 1 ∧
    calculateOdds (Selection.parity .even) MarketType.evenOdd 1 ≠ 1 := by
  have h1 : calculateOdds (Selection.parity .even) MarketType.evenOdd 1 = 199 / 100 := by
    rw [calculateOdds]
    show fromEqualBins (edgeFactor 1) 2 = 199 / 100
    rw [fromEqualBins, floor2, edgeFactor, clampEdge]
    norm_num
  have h2 : calculateOdds (Selection.parity .even) MarketType.evenOdd 2 = 199 / 100 := by
    rw [calculateOdds]
    show fromEqualBins (edgeFactor 2) 2 = 199 / 100
    rw [fromEqualBins, floor2, edgeFactor, clampEdge]
    norm_num
  exact ⟨by norm_num, by norm_num, by rw [h1, h2], by rw [h1] ; norm_num⟩

/-- C7 (amended): `calculateOdds` is weakly antitone in `houseEdgeBps`
(increasing the edge never increases the multiplier, though it can hold it
constant above the 1.0 floor because of two-decimal rounding), and the
edge is clamped to [0, 10000]: the result at any edge equals the result at
`min (max e 0) 10000`. -/
theorem c7_amended :
    (∀ (sel : Selection) (mt : MarketType) (e : ℚ),
      calculateOdds sel mt e = calculateOdds sel mt (min (max e 0) 10000)) ∧
    (∀ (sel : Selection) (mt : MarketType) (e1 e2 : ℚ), e1 ≤ e2 →
      calculateOdds sel mt e2 ≤ calculateOdds sel mt e1) := by
  constructor
  · intro sel mt e
    unfold calculateOdds
    have : edgeFactor (min (max e 0) 10000) = edgeFactor e := by
      unfold edgeFactor
      rw [show min (max e 0) 10000 = clampEdge e from rfl, clampEdge_idem]
    rw [this]
  · intro sel mt e1 e2 h
    exact calculateOddsF_mono sel mt (edgeFactor_pos e2).le (edgeFactor_antitone h)

/-- Witness for C7 (amended) at concrete inputs. -/
theorem c7_amended_witness :
    (calculateOdds (Selection.parity .even) MarketType.evenOdd 500 =
      calculateOdds (Selection.parity .even) MarketType.evenOdd (min (max (500 : ℚ) 0) 10000)) ∧
    (0 : ℚ) ≤ 500 ∧
    calculateOdds (Selection.parity .even) MarketType.evenOdd 500 ≤
      calculateOdds (Selection.parity .even) MarketType.evenOdd 0 :=
  ⟨c7_amended.1 _ _ _, by norm_num,
    c7_amended.2 (Selection.parity .even) MarketType.evenOdd 0 500 (by norm_num)⟩

/-! ### Ratio markets: zero numerator and the 1.0 floor (claim C8) -/

/-- The numerator/denominator pair of the ratio (`fromProbability`)
computation, for exactly the selections routed through it by
`calculateOdds`: non-dividing (or non-positive width) ranges, the
shape/color/size subset market, the pattern-frequency market, and the
community-seed market. -/
def ratioNumDen (sel : Selection) (mt : MarketType) : Option (ℚ × ℚ) :=
  match mt with
  | .pickRange =>
    match sel with
    | .range mn mx =>
      let width := mx - mn + 1
      if 0 < width ∧ (100 : Int) % width = 0 then none else some ((width : ℚ), 100)
    | _ => none
  | .shapeColor => some (shapeMatched sel, 72)
  | .patternOfDay => some ((patternNum sel : ℚ), 1000)
  | .communitySeed => some ((commNum (commT sel) : ℚ), 256)
  | _ => none

theorem fromProbability_zero {f num den : ℚ} (h : num = 0 ∨ den = 0) :
    fromProbability f num den = 0 := by
  unfold fromProbability
  rcases h with h | h <;> simp [h]

theorem fromProbability_ge_one {f num den : ℚ} (h1 : num ≠ 0) (h2 : den ≠ 0) :
    1 ≤ fromProbability f num den := by
  unfold fromProbability
  rw [if_neg (by simp [h1, h2])]
  exact le_max_left _ _

/-- C8 (confirmed): for every ratio-computed market, a zero numerator or
denominator makes `calculateOdds` return 0 (an unwinnable bet pays 0x),
and otherwise the multiplier is at least 1. -/
theorem c8_ratio_zero_and_floor (sel : Selection) (mt : MarketType) (e num den : ℚ)
    (h : ratioNumDen sel mt = some (num, den)) :
    ((num = 0 ∨ den = 0) → calculateOdds sel mt e = 0) ∧
    (num ≠ 0 → den ≠ 0 → 1 ≤ calculateOdds sel mt e) := by
  cases mt
  case shapeColor =>
    simp only [ratioNumDen, Option.some.injEq, Prod.mk.injEq] at h
    obtain ⟨h1, h2⟩ := h
    subst h1
    subst h2
    exact ⟨fun hz => fromProbability_zero hz, fun h1 h2 => fromProbability_ge_one h1 h2⟩
  case patternOfDay =>
    simp only [ratioNumDen, Option.some.injEq, Prod.mk.injEq] at h
    obtain ⟨h1, h2⟩ := h
    subst h1
    subst h2
    exact ⟨fun hz => fromProbability_zero hz, fun h1 h2 => fromProbability_ge_one h1 h2⟩
  case communitySeed =>
    simp only [ratioNumDen, Option.some.injEq, Prod.mk.injEq] at h
    obtain ⟨h1, h2⟩ := h
    subst h1
    subst h2
    exact ⟨fun hz => fromProbability_zero hz, fun h1 h2 => fromProbability_ge_one h1 h2⟩
  case pickRange =>
    cases sel
    case range mn mx =>
      simp only [ratioNumDen] at h
      split at h
      case isTrue hc => exact Option.noConfusion h
      case isFalse hc =>
        simp only [Option.some.injEq, Prod.mk.injEq] at h
        obtain ⟨h1, h2⟩ := h
        subst h1
        subst h2
        have hgoal :
            calculateOdds (Selection.range mn mx) MarketType.pickRange e =
              fromProbability (edgeFactor e) ((mx - mn + 1 : Int) : ℚ) 100 := by
          show (if 0 < mx - mn + 1 ∧ (100 : Int) % (mx - mn + 1) = 0 then
              fromEqualBins (edgeFactor e) ((100 : ℚ) / ((mx - mn + 1 : Int) : ℚ))
            else fromProbability (edgeFactor e) ((mx - mn + 1 : Int) : ℚ) 100) =
            fromProbability (edgeFactor e) ((mx - mn + 1 : Int) : ℚ) 100
          rw [if_neg hc]
        rw [hgoal]
        exact ⟨fun hz => fromProbability_zero hz, fun h1 h2 => fromProbability_ge_one h1 h2⟩
    all_goals exact Option.noConfusion h
  all_goals exact Option.noConfusion h

/-- Witness for C8 at a concrete zero-width range selection. -/
theorem c8_ratio_zero_and_floor_witness :
    ratioNumDen (Selection.range 1 0) MarketType.pickRange = some (0, 100) ∧
    (((0 : ℚ) = 0 ∨ (100 : ℚ) = 0) →
      calculateOdds (Selection.range 1 0) MarketType.pickRange 0 = 0) ∧
    ((0 : ℚ) ≠ 0 → (100 : ℚ) ≠ 0 →
      1 ≤ calculateOdds (Selection.range 1 0) MarketType.pickRange 0) :=
  ⟨by decide, c8_ratio_zero_and_floor (Selection.range 1 0) MarketType.pickRange 0 0 100 (by decide)⟩

/-! ### Unknown market type (claim C9) -/

/-- C9 (confirmed): `calculateOdds` on a market type outside the enum does
not fail — it falls to the default case and returns the two-equal-bins
multiplier `max 1 (floor2 (2 * edgeFactor e))` — even though both
`encodeSelection` and `validateSelection` raise a `ValidationError` for
the same market type. -/
theorem c9_unknown_market_type (sel : Selection) (e : ℚ) (maxStreak : Int) :
    calculateOdds sel MarketType.other e = max 1 (floor2 (2 * edgeFactor e)) ∧
    (∃ m, encodeSelection sel MarketType.other = .error m) ∧
    (∃ m, validateSelection maxStreak sel MarketType.other = .error m) :=
  ⟨rfl, ⟨_, rfl⟩, ⟨_, rfl⟩⟩

/-! ### Shape-market win condition (claim C10) -/

/-- C10 (confirmed): against a Shape outcome, a bet wins exactly when the
selection is a shape selection whose `shape` equals the outcome shape and
whose `color` is unset, the falsy value 0 (treated as no color
constraint), or equal to the outcome color; the `size` field never
influences the decision. -/
theorem c10_shape_win (sel : Selection) (os oc : Int) :
    (checkBetWon sel (Outcome.shapeOut os oc) = true ↔
      ∃ c z, sel = Selection.shape (some os) c z ∧
        (c = none ∨ c = some 0 ∨ c = some oc)) ∧
    (∀ (s c : Option Int) (z1 z2 : Option Int),
      checkBetWon (Selection.shape s c z1) (Outcome.shapeOut os oc) =
        checkBetWon (Selection.shape s c z2) (Outcome.shapeOut os oc)) := by
  constructor
  · cases sel
    case shape s c z =>
      simp only [checkBetWon, Bool.and_eq_true, Bool.or_eq_true, beq_iff_eq,
        Selection.shape.injEq]
      cases c with
      | none => simp [colorFree] ; aesop
      | some cv => simp [colorFree] ; aesop
    all_goals
      exact iff_of_false (by simp [checkBetWon]) (by rintro ⟨c, z, hh, -⟩ ; cases hh)
  · intro s c z1 z2
    rfl

/-! ### Data model for the settlement engine

The worker and the refund endpoint read and write single documents of the
Round and Bet collections.  A `World` is the database state relevant to
one round (rounds are independent units of work): the round document and
its bets.  External calls (the ledger gateway) are an oracle record whose
fields give each call site's outcome; transaction signatures are numbers.
Timestamps are irrelevant to the claims and collapsed to a `settledAtSet`
flag; leaderboard writes are outside the claims and omitted. -/

/-- The `BetStatus` enum values used by the core. -/
inductive BetStatus where
  | pending
  | won
  | lost
  | refunded
deriving DecidableEq, Repr

/-- The `RoundStatus` enum values used by the core. -/
inductive RoundStatus where
  | predicting
  | locked
  | settled
  | failed
deriving DecidableEq, Repr

/-- A Bet document (the fields the worker and services touch). -/
structure BetRec where
  id : Nat
  status : BetStatus
  stake : ℚ
  odds : ℚ
  payout : Option ℚ
  selection : Selection
  wallet : Option Nat
  settleTx : Option Nat
  refundTx : Option Nat
deriving DecidableEq, Repr

/-- A Round document (the fields the worker and services touch).
`delegateTx` present with `undelegateTx` absent means the round is
delegated to the side-ledger. -/
structure RoundRec where
  status : RoundStatus
  outcome : Option Outcome
  delegateTx : Option Nat
  undelegateTx : Option Nat
  baseUndelegateTx : Option Nat
  settledAtSet : Bool
deriving DecidableEq, Repr

/-- The database state for one round, plus the immutable market data
(`marketType`, `houseEdge`) and a fresh-id counter for bet creation. -/
structure World where
  round : Option RoundRec
  bets : List BetRec
  marketType : MarketType
  houseEdge : ℚ
  nextId : Nat
deriving DecidableEq, Repr

/-- `Bet.updateOne` by id: rewrite the matching document. -/
def updateBet (bets : List BetRec) (i : Nat) (f : BetRec → BetRec) : List BetRec :=
  bets.map fun b => if b.id = i then f b else b

/-- `Round.updateOne` for the single round document. -/
def setRound (w : World) (f : RoundRec → RoundRec) : World :=
  { w with round := w.round.map f }

/-- Outcomes of the external (ledger gateway) calls made by one settlement
run, one field per call site, in the order the worker makes them. -/
structure SettleOracle where
  mintPresent : Bool
  commitUndelegate1 : Except String (Nat × Nat)
  ensureUndelegated1 : Except String Unit
  waitOutcome : Except String Unit
  settleBet : Nat → Except String Nat
  settleRound : Except String Nat
  commitUndelegateRetry : Nat → Except String (Nat × Nat)
  ensureUndelegated2 : Except String Unit
  refundBet : Nat → Except String Nat

/-! ### The settlement worker (`processBetSettlementJob`, worker lines 14-203) -/

/-- The per-bet settlement loop (worker lines 54-86).  A missing wallet
makes the `new PublicKey` constructor throw before the settle call.  Each
iteration persists status (`WON`/`LOST`), payout (`stake * odds` or 0) and
the settle signature.  Returns the mutated state together with the first
raised error, if any. -/
def settleLoop (o : SettleOracle) (oc : Outcome) (pending : List BetRec) (w : World) :
    World × Except String Unit :=
  match pending with
  | [] => (w, .ok ())
  | b :: rest =>
    let won := checkBetWon b.selection oc
    let pay : ℚ := if won then b.stake * b.odds else 0
    match b.wallet with
    | none => (w, .error ("Invalid public key input"))
    | some _ =>
      match o.settleBet b.id with
      | .error m => (w, .error m)
      | .ok tx =>
        settleLoop o oc rest
          { w with bets := updateBet w.bets b.id (fun bb =>
              { bb with
                status := (if won then BetStatus.won else BetStatus.lost),
                payout := some pay, settleTx := some tx }) }

/-- Persist the undelegation hashes and `settledAt` after a successful
retry (worker line 109). -/
def stampUndeleg (w : World) (er base : Nat) : World :=
  setRound w fun r =>
    { r with
      undelegateTx := some er, baseUndelegateTx := some base, settledAtSet := true }

/-- The three-attempt commit-and-undelegate retry loop (worker lines
99-119); exhausting the attempts only stamps `settledAt`. -/
def retryUndeleg (o : SettleOracle) (w : World) : World :=
  match o.commitUndelegateRetry 0 with
  | .ok (er, base) => stampUndeleg w er base
  | .error _ =>
    match o.commitUndelegateRetry 1 with
    | .ok (er, base) => stampUndeleg w er base
    | .error _ =>
      match o.commitUndelegateRetry 2 with
      | .ok (er, base) => stampUndeleg w er base
      | .error _ => setRound w fun r => { r with settledAtSet := true }

/-- After marking the round settled: the on-chain round-settle call is
made inside its own try/catch (worker lines 90-94, failure only logged),
then the round is re-read and, if still delegated, the undelegate retry
loop runs (worker lines 96-120). -/
def postSettle (o : SettleOracle) (w : World) : World :=
  match w.round with
  | none => w
  | some r =>
    if r.delegateTx.isSome && r.undelegateTx.isNone then retryUndeleg o w else w

/-- The part of the try block after the delegation check: wait for the
outcome on base, settle every pending bet, mark the round `SETTLED`, then
the post-settlement calls (worker lines 52-122). -/
def afterDeleg (o : SettleOracle) (oc : Outcome) (pending : List BetRec) (w : World) :
    World × Except String Unit :=
  match o.waitOutcome with
  | .error m => (w, .error m)
  | .ok _ =>
    match settleLoop o oc pending w with
    | (w1, .error m) => (w1, .error m)
    | (w1, .ok _) =>
      let w2 := setRound w1 fun r => { r with status := .settled }
      (postSettle o w2, .ok ())

/-- The try block of `processBetSettlementJob` (worker lines 18-122):
load round and pending bets, fail if round or outcome is missing or the
mint config is absent, undelegate first when delegated (persisting the
hashes, then confirming), then settle. -/
def runTry (w : World) (o : SettleOracle) : World × Except String Unit :=
  match w.round with
  | none => (w, .error ("Round not found or outcome not available"))
  | some r =>
    match r.outcome with
    | none => (w, .error ("Round not found or outcome not available"))
    | some oc =>
      if o.mintPresent then
        let pending := w.bets.filter fun b => b.status == .pending
        if r.delegateTx.isSome && r.undelegateTx.isNone then
          match o.commitUndelegate1 with
          | .error m => (w, .error m)
          | .ok (er, base) =>
            let w1 := setRound w fun rr =>
              { rr with
                undelegateTx := some er, baseUndelegateTx := some base }
            match o.ensureUndelegated1 with
            | .error m => (w1, .error m)
            | .ok _ => afterDeleg o oc pending w1
        else afterDeleg o oc pending w
      else (w, .error ("Missing mintAddress in market config"))

/-- One bet of the refund fallback loop (worker lines 163-194): skipped
when the wallet or the mint is missing or the on-chain refund fails; on
success the bet is marked `REFUNDED` with `payout = stake` and the refund
signature. -/
def refundOne (o : SettleOracle) (mintP : Bool) (b : BetRec) (w : World) : World :=
  match b.wallet with
  | none => w
  | some _ =>
    if mintP then
      match o.refundBet b.id with
      | .ok tx =>
        { w with bets := updateBet w.bets b.id (fun bb =>
            { bb with
              status := .refunded, payout := some b.stake, refundTx := some tx }) }
      | .error _ => w
    else w

/-- The refund fallback loop over the still-pending bets. -/
def refundLoop (o : SettleOracle) (mintP : Bool) (pending : List BetRec) (w : World) : World :=
  match pending with
  | [] => w
  | b :: rest => refundLoop o mintP rest (refundOne o mintP b w)

/-- The catch handler's refund fallback (worker lines 133-201), reached
when the settlement error is a fatal on-chain error: nothing happens when
the round is gone; when at least one bet is still pending, the worker
first confirms the round is undelegated (re-raising on failure), refunds
each pending bet best-effort, and only then marks the round `FAILED`.
With no pending bets the handler returns without touching the round. -/
def refundFallback (w : World) (o : SettleOracle) : World × Except String Unit :=
  match w.round with
  | none => (w, .ok ())
  | some _ =>
    let pending := w.bets.filter fun b => b.status == .pending
    if pending.isEmpty then (w, .ok ())
    else
      match o.ensureUndelegated2 with
      | .error m => (w, .error m)
      | .ok _ =>
        let w1 := refundLoop o o.mintPresent pending w
        (setRound w1 (fun rr => { rr with status := .failed, settledAtSet := true }), .ok ())

/-- `processBetSettlementJob` (worker lines 14-203): run the try block;
on error, a retryable or non-on-chain error is re-thrown for the job
scheduler, a fatal on-chain error triggers the refund fallback. -/
def processBetSettlementJob (w : World) (o : SettleOracle) : World × Except String Unit :=
  match runTry w o with
  | (w1, .ok _) => (w1, .ok ())
  | (w1, .error m) =>
    if isRetryableSettlementError m then (w1, .error m)
    else if !(isOnchainTxError m) then (w1, .error m)
    else refundFallback w1 o

/-! ### The admin refund endpoint (`BetsService.refundBets`, bets.service.ts
lines 406-465) -/

/-- External-call outcomes for one `refundBets` invocation. -/
structure AdminRefundOracle where
  mintPresent : Bool
  refundBet : Nat → Except String Nat

/-- One bet of the admin refund pass (bets.service.ts lines 426-456):
skip when the wallet is missing or the on-chain refund fails; on success
mark `REFUNDED` with `payout = stake`. -/
def adminRefundOne (o : AdminRefundOracle) (b : BetRec) (w : World) : World :=
  match b.wallet with
  | none => w
  | some _ =>
    match o.refundBet b.id with
    | .ok _ =>
      { w with bets := updateBet w.bets b.id (fun bb =>
          { bb with status := .refunded, payout := some b.stake }) }
    | .error _ => w

/-- The admin refund pass over the pending bets.  The source issues the
per-bet refunds through `Promise.all`; the per-bet document updates are
independent (distinct ids), so the sequential fold has the same effect. -/
def adminRefundLoop (o : AdminRefundOracle) (pending : List BetRec) (w : World) : World :=
  match pending with
  | [] => w
  | b :: rest => adminRefundLoop o rest (adminRefundOne o b w)

/-- `BetsService.refundBets` (bets.service.ts lines 406-465): refund every
pending bet best-effort and always end by marking the round `FAILED` —
with no delegation check anywhere on this path. -/
def refundBets (w : World) (o : AdminRefundOracle) : World × Except String Unit :=
  match w.round with
  | none => (w, .error ("Round"))
  | some _ =>
    if o.mintPresent then
      let pending := w.bets.filter fun b => b.status == .pending
      let w1 := adminRefundLoop o pending w
      (setRound w1 (fun r => { r with status := .failed, settledAtSet := true }), .ok ())
    else (w, .error ("Missing mintAddress in market config"))

/-! ### Helper lemmas about the refund loops -/

theorem updateBet_keeps {bets : List BetRec} {i : Nat} {f : BetRec → BetRec} {bb : BetRec}
    (hmem : bb ∈ bets) (hne : bb.id ≠ i) : bb ∈ updateBet bets i f := by
  unfold updateBet
  exact List.mem_map.mpr ⟨bb, hmem, by rw [if_neg hne]⟩

theorem refundOne_keeps {o : SettleOracle} {mp : Bool} {p : BetRec} {w : World} {bb : BetRec}
    (hmem : bb ∈ w.bets) (hne : bb.id ≠ p.id) : bb ∈ (refundOne o mp p w).bets := by
  unfold refundOne
  split
  · exact hmem
  · split
    · split
      · exact updateBet_keeps hmem hne
      · exact hmem
    · exact hmem

theorem refundOne_round (o : SettleOracle) (mp : Bool) (p : BetRec) (w : World) :
    (refundOne o mp p w).round = w.round := by
  unfold refundOne
  split
  · rfl
  · split
    · split <;> rfl
    · rfl

theorem refundOne_skip {o : SettleOracle} {mp : Bool} {b : BetRec} (w : World)
    (hfail : b.wallet = none ∨ mp = false ∨ ∃ m, o.refundBet b.id = .error m) :
    refundOne o mp b w = w := by
  unfold refundOne
  rcases hfail with hn | hmp | ⟨m, he⟩
  · rw [hn]
  · rw [hmp]
    cases b.wallet <;> simp
  · cases hwb : b.wallet with
    | none => rfl
    | some v =>
      rw [he]
      cases mp <;> simp

theorem refundLoop_keeps {o : SettleOracle} {mp : Bool} {pend : List BetRec} {w : World}
    {bb : BetRec} (hmem : bb ∈ w.bets) (hni : ∀ x ∈ pend, x.id ≠ bb.id) :
    bb ∈ (refundLoop o mp pend w).bets := by
  induction pend generalizing w with
  | nil => exact hmem
  | cons p rest ih =>
    exact ih (refundOne_keeps hmem fun h => hni p (List.mem_cons_self p rest) h.symm)
      fun x hx => hni x (List.mem_cons_of_mem _ hx)

theorem refundLoop_round (o : SettleOracle) (mp : Bool) (pend : List BetRec) (w : World) :
    (refundLoop o mp pend w).round = w.round := by
  induction pend generalizing w with
  | nil => rfl
  | cons p rest ih => rw [refundLoop, ih, refundOne_round]

theorem refundLoop_refunds {o : SettleOracle} {pend : List BetRec} {w : World}
    {b : BetRec} {tx : Nat}
    (hb : b ∈ pend) (hmem : b ∈ w.bets)
    (hpnd : pend.Pairwise fun x y => x.id ≠ y.id)
    (hw : b.wallet.isSome) (hok : o.refundBet b.id = .ok tx) :
    ∃ b2 ∈ (refundLoop o true pend w).bets,
      b2.id = b.id ∧ b2.status = .refunded ∧ b2.payout = some b.stake := by
  induction pend generalizing w with
  | nil => cases hb
  | cons p rest ih =>
    simp only [refundLoop]
    rcases List.mem_cons.mp hb with rfl | hbr
    · obtain ⟨v, hv⟩ := Option.isSome_iff_exists.mp hw
      have h1 : refundOne o true b w =
          { w with bets := updateBet w.bets b.id (fun bb =>
              { bb with
                status := .refunded, payout := some b.stake, refundTx := some tx }) } := by
        unfold refundOne
        rw [hv, hok]
        simp
      have hb2 : { b with
          status := BetStatus.refunded, payout := some b.stake, refundTx := some tx } ∈
          (refundOne o true b w).bets := by
        rw [h1]
        exact List.mem_map.mpr ⟨b, hmem, by rw [if_pos rfl]⟩
      refine ⟨{ b with
          status := BetStatus.refunded, payout := some b.stake, refundTx := some tx },
        refundLoop_keeps hb2 ?_, rfl, rfl, rfl⟩
      intro x hx
      exact fun h => (List.rel_of_pairwise_cons hpnd hx) h.symm
    · have hkeep : b ∈ (refundOne o true p w).bets :=
        refundOne_keeps hmem fun h => (List.rel_of_pairwise_cons hpnd hbr) h.symm
      exact ih hbr hkeep (List.Pairwise.of_cons hpnd)

theorem refundLoop_skips {o : SettleOracle} {mp : Bool} {pend : List BetRec} {w : World}
    {b : BetRec} (hb : b ∈ pend) (hmem : b ∈ w.bets)
    (hpnd : pend.Pairwise fun x y => x.id ≠ y.id)
    (hfail : b.wallet = none ∨ mp = false ∨ ∃ m, o.refundBet b.id = .error m) :
    b ∈ (refundLoop o mp pend w).bets := by
  induction pend generalizing w with
  | nil => cases hb
  | cons p rest ih =>
    rcases List.mem_cons.mp hb with rfl | hbr
    · rw [refundLoop, refundOne_skip w hfail]
      exact refundLoop_keeps hmem
        fun x hx h => (List.rel_of_pairwise_cons hpnd hx) h.symm
    · have hkeep : b ∈ (refundOne o mp p w).bets :=
        refundOne_keeps hmem fun h => (List.rel_of_pairwise_cons hpnd hbr) h.symm
      exact ih hbr hkeep (List.Pairwise.of_cons hpnd)

/-! ### Claim C3: the refund fallback after a fatal on-chain error -/

/-- C3 (amended): when the try block of a settlement run fails with a
fatal on-chain transaction error (classified on-chain, not retryable),
the round still exists, at least one bet is still `PENDING`, and the
undelegation check succeeds, then: every still-pending bet with a
recorded wallet whose on-chain refund succeeds (with the mint configured)
is marked `REFUNDED` with `payout = stake`; every still-pending bet whose
refund is skipped or fails stays exactly as it was; non-pending bets are
untouched; and the round is marked `FAILED`.  (With no pending bets the
handler returns without marking the round `FAILED` — see the
counterexample.) -/
theorem c3_amended (w : World) (o : SettleOracle) (w1 : World) (m : String)
    (hrun : runTry w o = (w1, .error m))
    (hret : isRetryableSettlementError m = false)
    (hon : isOnchainTxError m = true)
    (hround : w1.round.isSome)
    (hpend : w1.bets.filter (fun b => b.status == .pending) ≠ [])
    (hund : o.ensureUndelegated2 = .ok ())
    (hids : w1.bets.Pairwise fun x y => x.id ≠ y.id) :
    (∃ r2, (processBetSettlementJob w o).1.round = some r2 ∧ r2.status = .failed) ∧
    (∀ b ∈ w1.bets, b.status = .pending → b.wallet.isSome → o.mintPresent = true →
      ∀ tx, o.refundBet b.id = .ok tx →
        ∃ b2 ∈ (processBetSettlementJob w o).1.bets,
          b2.id = b.id ∧ b2.status = .refunded ∧ b2.payout = some b.stake) ∧
    (∀ b ∈ w1.bets, b.status = .pending →
      (b.wallet = none ∨ o.mintPresent = false ∨ ∃ em, o.refundBet b.id = .error em) →
      b ∈ (processBetSettlementJob w o).1.bets) ∧
    (∀ b ∈ w1.bets, b.status ≠ .pending → b ∈ (processBetSettlementJob w o).1.bets) := by
  obtain ⟨r, hr⟩ := Option.isSome_iff_exists.mp hround
  have hpj : processBetSettlementJob w o = refundFallback w1 o := by
    simp [processBetSettlementJob, hrun, hret, hon]
  have hemp : (w1.bets.filter fun b => b.status == .pending).isEmpty = false := by
    cases hl : w1.bets.filter fun b => b.status == .pending with
    | nil => exact absurd hl hpend
    | cons x xs => rfl
  have hrf : refundFallback w1 o =
      (setRound (refundLoop o o.mintPresent
          (w1.bets.filter fun b => b.status == .pending) w1)
        (fun rr => { rr with status := .failed, settledAtSet := true }), .ok ()) := by
    simp [refundFallback, hr, hemp, hund]
  have hpnd2 : (w1.bets.filter fun b => b.status == .pending).Pairwise
      fun x y => x.id ≠ y.id :=
    hids.sublist (List.filter_sublist _)
  rw [hpj, hrf]
  refine ⟨?_, ?_, ?_, ?_⟩
  · refine ⟨{ r with status := .failed, settledAtSet := true }, ?_, rfl⟩
    show (setRound _ _).round = _
    rw [setRound, refundLoop_round, hr]
    rfl
  · intro b hbmem hbp hbw hmint tx htx
    have hbf : b ∈ w1.bets.filter fun b => b.status == .pending :=
      List.mem_filter.mpr ⟨hbmem, by simp [hbp]⟩
    rw [hmint]
    obtain ⟨b2, h1, h2, h3, h4⟩ := refundLoop_refunds hbf hbmem hpnd2 hbw htx
    exact ⟨b2, h1, h2, h3, h4⟩
  · intro b hbmem hbp hfail
    have hbf : b ∈ w1.bets.filter fun b => b.status == .pending :=
      List.mem_filter.mpr ⟨hbmem, by simp [hbp]⟩
    exact refundLoop_skips hbf hbmem hpnd2 hfail
  · intro b hbmem hbp
    refine refundLoop_keeps hbmem ?_
    intro x hx hxid
    have hxm := List.mem_filter.mp hx
    by_cases hxb : x = b
    · subst hxb
      exact hbp (by simpa using hxm.2)
    · exact (hids.forall (fun a b h => fun hh => h hh.symm) hxm.1 hbmem hxb) hxid

/-- Concrete inputs for the C3 witness: an undelegated round with one
pending bet; the per-bet settle call fails with a simulation error and
the on-chain refund succeeds. -/
def c3wRound : RoundRec :=
  { status := .locked, outcome := some (.numeric 4), delegateTx := none,
    undelegateTx := none, baseUndelegateTx := none, settledAtSet := false }

def c3wBet : BetRec :=
  { id := 1, status := .pending, stake := 10, odds := 2, payout := none,
    selection := .parity .even, wallet := some 11, settleTx := none, refundTx := none }

def c3wWorld : World :=
  { round := some c3wRound, bets := [c3wBet], marketType := .evenOdd,
    houseEdge := 0, nextId := 2 }

def c3wOracle : SettleOracle :=
  { mintPresent := true, commitUndelegate1 := .ok (7, 8), ensureUndelegated1 := .ok (),
    waitOutcome := .ok (), settleBet := fun _ => .error ("transaction simulation failed"),
    settleRound := .ok 50, commitUndelegateRetry := fun _ => .error ("late"),
    ensureUndelegated2 := .ok (), refundBet := fun i => .ok (200 + i) }

/-- Witness for C3 (amended) at the concrete inputs above. -/
theorem c3_amended_witness :
    ∃ r2, (processBetSettlementJob c3wWorld c3wOracle).1.round = some r2 ∧
      r2.status = .failed :=
  (c3_amended c3wWorld c3wOracle c3wWorld ("transaction simulation failed") rfl
    (by decide) (by decide) rfl (by decide) rfl (by simp [c3wWorld])).1

/-- Concrete inputs for the C3 counterexample: a delegated round with no
pending bets whose undelegation fails with a fatal on-chain error. -/
def c3cRound : RoundRec :=
  { status := .locked, outcome := some (.numeric 4), delegateTx := some 1,
    undelegateTx := none, baseUndelegateTx := none, settledAtSet := false }

def c3cWorld : World :=
  { round := some c3cRound, bets := [], marketType := .evenOdd, houseEdge := 0, nextId := 1 }

def c3cOracle : SettleOracle :=
  { mintPresent := true, commitUndelegate1 := .error ("transaction simulation failed"),
    ensureUndelegated1 := .ok (), waitOutcome := .ok (), settleBet := fun _ => .ok 0,
    settleRound := .ok 0, commitUndelegateRetry := fun _ => .ok (7, 8),
    ensureUndelegated2 := .ok (), refundBet := fun _ => .ok 0 }

/-- C3 (counterexample to the claim as stated): a settlement run that
fails with a fatal on-chain transaction error while no bet is still
`PENDING` does NOT mark the round `FAILED`: the catch handler returns
with the round untouched (status stays `LOCKED`), contradicting the
claim that the round is then marked `FAILED`. -/
theorem c3_counterexample :
    runTry c3cWorld c3cOracle = (c3cWorld, .error ("transaction simulation failed")) ∧
    isOnchainTxError ("transaction simulation failed") = true ∧
    isRetryableSettlementError ("transaction simulation failed") = false ∧
    (processBetSettlementJob c3cWorld c3cOracle).1 = c3cWorld ∧
    (processBetSettlementJob c3cWorld c3cOracle).2 = .ok () ∧
    c3cRound.status ≠ RoundStatus.failed :=
  ⟨rfl, by decide, by decide, by decide, rfl, by decide⟩

/-! ### Claim C4: retryable errors and database mutation -/

/-- C4 (amended): (1) when the try block of a settlement run ends in a
retryable error, the catch handler re-raises it and performs no further
mutation — the final state is exactly the state the try block left; and
(2) when the round exists with an outcome, the mint is configured, the
round is NOT delegated, and the wait-for-outcome-on-base call raises a
retryable error, the whole run leaves every Bet record and the Round
record exactly as they were.  (A run on a still-delegated round persists
the undelegation transaction hashes before any retryable error can be
re-raised, and a retryable error thrown mid-loop leaves the bets already
settled — see the counterexample.) -/
theorem c4_amended :
    (∀ (w : World) (o : SettleOracle) (w1 : World) (m : String),
      runTry w o = (w1, .error m) → isRetryableSettlementError m = true →
      processBetSettlementJob w o = (w1, .error m)) ∧
    (∀ (w : World) (o : SettleOracle) (r : RoundRec) (oc : Outcome) (m : String),
      w.round = some r → r.outcome = some oc → o.mintPresent = true →
      (r.delegateTx.isSome && r.undelegateTx.isNone) = false →
      o.waitOutcome = .error m → isRetryableSettlementError m = true →
      processBetSettlementJob w o = (w, .error m)) := by
  constructor
  · intro w o w1 m hrun hret
    simp [processBetSettlementJob, hrun, hret]
  · intro w o r oc m hr ho hm hd hw hret
    have hrun : runTry w o = (w, .error m) := by
      simp only [runTry, hr, ho, hm, hd, afterDeleg, hw]
      simp
    simp [processBetSettlementJob, hrun, hret]

/-- Concrete inputs for the C4 witness: an undelegated round where the
outcome is not yet available on the base ledger. -/
def c4wRound : RoundRec :=
  { status := .locked, outcome := some (.numeric 4), delegateTx := none,
    undelegateTx := none, baseUndelegateTx := none, settledAtSet := false }

def c4wWorld : World :=
  { round := some c4wRound, bets := [], marketType := .evenOdd, houseEdge := 0, nextId := 1 }

def c4wOracle : SettleOracle :=
  { mintPresent := true, commitUndelegate1 := .ok (7, 8), ensureUndelegated1 := .ok (),
    waitOutcome := .error ("outcome not available on base"), settleBet := fun _ => .ok 0,
    settleRound := .ok 0, commitUndelegateRetry := fun _ => .ok (7, 8),
    ensureUndelegated2 := .ok (), refundBet := fun _ => .ok 0 }

/-- Witness for C4 (amended) at the concrete inputs above. -/
theorem c4_amended_witness :
    processBetSettlementJob c4wWorld c4wOracle =
      (c4wWorld, .error ("outcome not available on base")) :=
  c4_amended.2 c4wWorld c4wOracle c4wRound (.numeric 4) ("outcome not available on base")
    rfl rfl rfl (by decide) rfl (by decide)

/-- Concrete inputs for the C4 counterexample: a delegated round whose
undelegation confirmation raises a retryable error after the undelegate
hashes were already persisted. -/
def c4cRound : RoundRec :=
  { status := .locked, outcome := some (.numeric 4), delegateTx := some 1,
    undelegateTx := none, baseUndelegateTx := none, settledAtSet := false }

def c4cWorld : World :=
  { round := some c4cRound, bets := [], marketType := .evenOdd, houseEdge := 0, nextId := 1 }

def c4cOracle : SettleOracle :=
  { mintPresent := true, commitUndelegate1 := .ok (7, 8),
    ensureUndelegated1 := .error ("round still delegated"), waitOutcome := .ok (),
    settleBet := fun _ => .ok 0, settleRound := .ok 0,
    commitUndelegateRetry := fun _ => .ok (7, 8), ensureUndelegated2 := .ok (),
    refundBet := fun _ => .ok 0 }

/-- C4 (counterexample to the claim as stated): a settlement run on a
delegated round persists the undelegation transaction hashes in the
Round document and THEN re-raises a retryable error (here: the
undelegation confirmation reports the round still delegated), so the run
terminates by re-raising a retryable error after having mutated the
Round record. -/
theorem c4_counterexample :
    (processBetSettlementJob c4cWorld c4cOracle).2 =
      .error ("round still delegated") ∧
    isRetryableSettlementError ("round still delegated") = true ∧
    (processBetSettlementJob c4cWorld c4cOracle).1.round ≠ c4cWorld.round :=
  ⟨rfl, by decide, by decide⟩

/-! ### Claims C5 and C6: system-level invariants

The two claims quantify over every reachable state.  The reachable states
are generated by the operations that touch the Round and Bet documents of
one round: bet confirmation (creation), the settlement job, the admin
refund endpoint, and the out-of-scope round-lifecycle writes the spec
names (locking, outcome reveal, delegation during the betting window). -/

/-- The per-bet payout/status relationship of the data model. -/
def BInv (b : BetRec) : Prop :=
  (b.status = .pending → b.payout = none) ∧
  (b.status = .won → b.payout = some (b.stake * b.odds)) ∧
  (b.status = .lost → b.payout = some 0) ∧
  (b.status = .refunded → b.payout = some b.stake)

/-- The per-round delegation invariant: never `SETTLED` while delegated. -/
def RInv (r : RoundRec) : Prop :=
  r.status = .settled → (r.delegateTx.isSome && r.undelegateTx.isNone) = false

theorem mem_updateBet {bets : List BetRec} {i : Nat} {f : BetRec → BetRec} {b2 : BetRec}
    (h : b2 ∈ updateBet bets i f) :
    ∃ bb ∈ bets, b2 = bb ∨ (bb.id = i ∧ b2 = f bb) := by
  obtain ⟨bb, hmem, heq⟩ := List.mem_map.mp h
  by_cases hid : bb.id = i
  · exact ⟨bb, hmem, .inr ⟨hid, by rw [← heq, if_pos hid]⟩⟩
  · exact ⟨bb, hmem, .inl (by rw [← heq, if_neg hid])⟩

theorem updateBet_ids {bets : List BetRec} {i : Nat} {f : BetRec → BetRec}
    (hf : ∀ b, (f b).id = b.id) :
    (updateBet bets i f).map BetRec.id = bets.map BetRec.id := by
  unfold updateBet
  rw [List.map_map]
  refine List.map_congr_left fun b _ => ?_
  by_cases hid : b.id = i
  · simp [Function.comp, hid, hf]
  · simp [Function.comp, hid]

/-- The settlement loop preserves ids, stakes and odds, keeps every bet
satisfying `BInv`, and never produces a `REFUNDED` bet that was not
already refunded.  `hso` says the snapshot agrees with the current
documents on stake and odds (true initially because the snapshot is a
filter of the documents, and preserved because no write changes stake or
odds). -/
theorem settleLoop_inv (o : SettleOracle) (oc : Outcome) (pend : List BetRec) (w : World)
    (hso : ∀ p ∈ pend, ∀ bb ∈ w.bets, bb.id = p.id → bb.stake = p.stake ∧ bb.odds = p.odds)
    (hB : ∀ bb ∈ w.bets, BInv bb) :
    ((settleLoop o oc pend w).1.bets.map BetRec.id = w.bets.map BetRec.id) ∧
    ((settleLoop o oc pend w).1.nextId = w.nextId) ∧
    ((settleLoop o oc pend w).1.round = w.round) ∧
    (∀ b2 ∈ (settleLoop o oc pend w).1.bets, BInv b2 ∧
      ∃ bb ∈ w.bets, b2.id = bb.id ∧ b2.stake = bb.stake ∧ b2.odds = bb.odds ∧
        (b2.status = .refunded → bb.status = .refunded)) := by
  induction pend generalizing w with
  | nil =>
    exact ⟨rfl, rfl, rfl, fun b2 h2 => ⟨hB b2 h2, b2, h2, rfl, rfl, rfl, fun h => h⟩⟩
  | cons p rest ih =>
    show _ ∧ _ ∧ _ ∧ _
    simp only [settleLoop]
    cases hwp : p.wallet with
    | none =>
      exact ⟨rfl, rfl, rfl, fun b2 h2 => ⟨hB b2 h2, b2, h2, rfl, rfl, rfl, fun h => h⟩⟩
    | some v =>
      cases hsb : o.settleBet p.id with
      | error m =>
        exact ⟨rfl, rfl, rfl, fun b2 h2 => ⟨hB b2 h2, b2, h2, rfl, rfl, rfl, fun h => h⟩⟩
      | ok tx =>
        set won := checkBetWon p.selection oc with hwon
        set pay : ℚ := if won then p.stake * p.odds else 0 with hpay
        set f : BetRec → BetRec := fun bb =>
          { bb with
            status := (if won then BetStatus.won else BetStatus.lost),
            payout := some pay, settleTx := some tx } with hf
        set w2 : World := { w with bets := updateBet w.bets p.id f } with hw2
        have hfid : ∀ b, (f b).id = b.id := fun b => rfl
        have hfstat : ∀ b, (f b).status ≠ BetStatus.refunded := by
          intro b
          cases hw : won <;> simp [hf, hw]
        have hso2 : ∀ q ∈ rest, ∀ bb ∈ w2.bets, bb.id = q.id →
            bb.stake = q.stake ∧ bb.odds = q.odds := by
          intro q hq bb2 hbb2 hid
          obtain ⟨bb, hbbmem, hcase⟩ := mem_updateBet hbb2
          rcases hcase with heq | ⟨hbid, heq⟩
          · subst heq
            exact hso q (List.mem_cons_of_mem _ hq) bb2 hbbmem hid
          · subst heq
            exact hso q (List.mem_cons_of_mem _ hq) bb hbbmem hid
        have hB2 : ∀ bb2 ∈ w2.bets, BInv bb2 := by
          intro bb2 hbb2
          obtain ⟨bb, hbbmem, hcase⟩ := mem_updateBet hbb2
          rcases hcase with heq | ⟨hbid, heq⟩
          · subst heq
            exact hB bb2 hbbmem
          · subst heq
            obtain ⟨hst, hod⟩ := hso p (List.mem_cons_self p rest) bb hbbmem hbid
            cases hw : won with
            | true =>
              refine ⟨fun h => by simp [hf, hw] at h, fun _ => ?_, fun h => ?_, fun h => ?_⟩
              · simp [hf, hw, hpay, hst, hod]
              · simp [hf, hw] at h
              · simp [hf, hw] at h
            | false =>
              refine ⟨fun h => by simp [hf, hw] at h, fun h => ?_, fun _ => ?_, fun h => ?_⟩
              · simp [hf, hw] at h
              · simp [hf, hw, hpay]
              · simp [hf, hw] at h
        obtain ⟨ih1, ih2, ih3, ih4⟩ := ih w2 hso2 hB2
        refine ⟨?_, ih2, ih3, ?_⟩
        · rw [ih1, hw2]
          exact updateBet_ids hfid
        · intro b2 h2
          obtain ⟨hBi, bb2, hbb2, hlink⟩ := ih4 b2 h2
          obtain ⟨bb, hbbmem, hcase⟩ := mem_updateBet hbb2
          rcases hcase with heq | ⟨hbid, heq⟩
          · subst heq
            exact ⟨hBi, bb2, hbbmem, hlink⟩
          · subst heq
            obtain ⟨l1, l2, l3, l4⟩ := hlink
            exact ⟨hBi, bb, hbbmem, l1, l2, l3, fun hrf => absurd (l4 hrf) (hfstat bb)⟩

theorem refundOne_cases (o : SettleOracle) (mp : Bool) (p : BetRec) (w : World) :
    refundOne o mp p w = w ∨ ∃ tx, refundOne o mp p w =
      { w with bets := updateBet w.bets p.id (fun bb =>
          { bb with status := .refunded, payout := some p.stake, refundTx := some tx }) } := by
  unfold refundOne
  cases p.wallet with
  | none => exact .inl rfl
  | some v =>
    cases mp with
    | false => exact .inl (by simp)
    | true =>
      cases o.refundBet p.id with
      | ok tx => exact .inr ⟨tx, by simp⟩
      | error m => exact .inl (by simp)

theorem adminRefundOne_cases (o : AdminRefundOracle) (p : BetRec) (w : World) :
    adminRefundOne o p w = w ∨ adminRefundOne o p w =
      { w with bets := updateBet w.bets p.id (fun bb =>
          { bb with status := .refunded, payout := some p.stake }) } := by
  unfold adminRefundOne
  cases p.wallet with
  | none => exact .inl rfl
  | some v =>
    cases o.refundBet p.id with
    | ok tx => exact .inr rfl
    | error m => exact .inl rfl

/-- The facts carried through a refund-style document update: the update
keys on one bet id, preserves id, stake and odds everywhere, and writes
status `REFUNDED` with `payout = stake` of the updated bet. -/
theorem refundUpdate_inv {w : World} {p : BetRec} {f : BetRec → BetRec}
    (hfid : ∀ b, (f b).id = b.id) (hfstake : ∀ b, (f b).stake = b.stake)
    (hfodds : ∀ b, (f b).odds = b.odds)
    (hfst : ∀ b, (f b).status = BetStatus.refunded)
    (hfpay : ∀ b, (f b).payout = some p.stake)
    (hso : ∀ bb ∈ w.bets, bb.id = p.id → bb.stake = p.stake)
    (hB : ∀ bb ∈ w.bets, BInv bb) :
    ((updateBet w.bets p.id f).map BetRec.id = w.bets.map BetRec.id) ∧
    (∀ b2 ∈ updateBet w.bets p.id f, BInv b2 ∧
      ∃ bb ∈ w.bets, b2.id = bb.id ∧ b2.stake = bb.stake ∧ b2.odds = bb.odds) := by
  refine ⟨updateBet_ids hfid, ?_⟩
  intro b2 h2
  obtain ⟨bb, hbbmem, hcase⟩ := mem_updateBet h2
  rcases hcase with heq | ⟨hbid, heq⟩
  · subst heq
    exact ⟨hB b2 hbbmem, b2, hbbmem, rfl, rfl, rfl⟩
  · subst heq
    have hstake := hso bb hbbmem hbid
    refine ⟨⟨fun h => ?_, fun h => ?_, fun h => ?_, fun _ => ?_⟩,
      bb, hbbmem, hfid bb, hfstake bb, hfodds bb⟩
    · rw [hfst bb] at h
      cases h
    · rw [hfst bb] at h
      cases h
    · rw [hfst bb] at h
      cases h
    · rw [hfpay bb, hfstake bb, hstake]

theorem refundLoop_inv (o : SettleOracle) (mp : Bool) (pend : List BetRec) (w : World)
    (hso : ∀ p ∈ pend, ∀ bb ∈ w.bets, bb.id = p.id → bb.stake = p.stake ∧ bb.odds = p.odds)
    (hB : ∀ bb ∈ w.bets, BInv bb) :
    ((refundLoop o mp pend w).bets.map BetRec.id = w.bets.map BetRec.id) ∧
    ((refundLoop o mp pend w).nextId = w.nextId) ∧
    ((refundLoop o mp pend w).round = w.round) ∧
    (∀ b2 ∈ (refundLoop o mp pend w).bets, BInv b2 ∧
      ∃ bb ∈ w.bets, b2.id = bb.id ∧ b2.stake = bb.stake ∧ b2.odds = bb.odds) := by
  induction pend generalizing w with
  | nil => exact ⟨rfl, rfl, rfl, fun b2 h2 => ⟨hB b2 h2, b2, h2, rfl, rfl, rfl⟩⟩
  | cons p rest ih =>
    simp only [refundLoop]
    rcases refundOne_cases o mp p w with heq | ⟨tx, heq⟩
    · rw [heq]
      exact ih w (fun q hq => hso q (List.mem_cons_of_mem _ hq)) hB
    · rw [heq]
      obtain ⟨hupd1, hupd2⟩ := refundUpdate_inv (p := p)
        (f := fun bb => { bb with
          status := .refunded, payout := some p.stake, refundTx := some tx })
        (fun _ => rfl) (fun _ => rfl) (fun _ => rfl) (fun _ => rfl) (fun _ => rfl)
        (fun bb hbb hid => (hso p (List.mem_cons_self p rest) bb hbb hid).1) hB
      set w2 : World := { w with bets := updateBet w.bets p.id (fun bb =>
        { bb with status := .refunded, payout := some p.stake, refundTx := some tx }) }
        with hw2
      have hso2 : ∀ q ∈ rest, ∀ bb2 ∈ w2.bets, bb2.id = q.id →
          bb2.stake = q.stake ∧ bb2.odds = q.odds := by
        intro q hq bb2 hbb2 hid
        obtain ⟨_, bb, hbbmem, hl1, hl2, hl3⟩ := hupd2 bb2 hbb2
        obtain ⟨hs, ho⟩ := hso q (List.mem_cons_of_mem _ hq) bb hbbmem (hl1 ▸ hid)
        exact ⟨hl2.trans hs, hl3.trans ho⟩
      have hB2 : ∀ bb2 ∈ w2.bets, BInv bb2 := fun bb2 hbb2 => (hupd2 bb2 hbb2).1
      obtain ⟨ih1, ih2, ih3, ih4⟩ := ih w2 hso2 hB2
      refine ⟨by rw [ih1, hw2] ; exact hupd1, ih2, ih3, ?_⟩
      intro b2 h2
      obtain ⟨hBi, bb2, hbb2, l1, l2, l3⟩ := ih4 b2 h2
      obtain ⟨_, bb, hbbmem, m1, m2, m3⟩ := hupd2 bb2 hbb2
      exact ⟨hBi, bb, hbbmem, l1.trans m1, l2.trans m2, l3.trans m3⟩

theorem adminRefundLoop_inv (o : AdminRefundOracle) (pend : List BetRec) (w : World)
    (hso : ∀ p ∈ pend, ∀ bb ∈ w.bets, bb.id = p.id → bb.stake = p.stake ∧ bb.odds = p.odds)
    (hB : ∀ bb ∈ w.bets, BInv bb) :
    ((adminRefundLoop o pend w).bets.map BetRec.id = w.bets.map BetRec.id) ∧
    ((adminRefundLoop o pend w).nextId = w.nextId) ∧
    ((adminRefundLoop o pend w).round = w.round) ∧
    (∀ b2 ∈ (adminRefundLoop o pend w).bets, BInv b2 ∧
      ∃ bb ∈ w.bets, b2.id = bb.id ∧ b2.stake = bb.stake ∧ b2.odds = bb.odds) := by
  induction pend generalizing w with
  | nil => exact ⟨rfl, rfl, rfl, fun b2 h2 => ⟨hB b2 h2, b2, h2, rfl, rfl, rfl⟩⟩
  | cons p rest ih =>
    simp only [adminRefundLoop]
    rcases adminRefundOne_cases o p w with heq | heq
    · rw [heq]
      exact ih w (fun q hq => hso q (List.mem_cons_of_mem _ hq)) hB
    · rw [heq]
      obtain ⟨hupd1, hupd2⟩ := refundUpdate_inv (p := p)
        (f := fun bb => { bb with status := .refunded, payout := some p.stake })
        (fun _ => rfl) (fun _ => rfl) (fun _ => rfl) (fun _ => rfl) (fun _ => rfl)
        (fun bb hbb hid => (hso p (List.mem_cons_self p rest) bb hbb hid).1) hB
      set w2 : World := { w with bets := updateBet w.bets p.id (fun bb =>
        { bb with status := .refunded, payout := some p.stake }) } with hw2
      have hso2 : ∀ q ∈ rest, ∀ bb2 ∈ w2.bets, bb2.id = q.id →
          bb2.stake = q.stake ∧ bb2.odds = q.odds := by
        intro q hq bb2 hbb2 hid
        obtain ⟨_, bb, hbbmem, hl1, hl2, hl3⟩ := hupd2 bb2 hbb2
        obtain ⟨hs, ho⟩ := hso q (List.mem_cons_of_mem _ hq) bb hbbmem (hl1 ▸ hid)
        exact ⟨hl2.trans hs, hl3.trans ho⟩
      have hB2 : ∀ bb2 ∈ w2.bets, BInv bb2 := fun bb2 hbb2 => (hupd2 bb2 hbb2).1
      obtain ⟨ih1, ih2, ih3, ih4⟩ := ih w2 hso2 hB2
      refine ⟨by rw [ih1, hw2] ; exact hupd1, ih2, ih3, ?_⟩
      intro b2 h2
      obtain ⟨hBi, bb2, hbb2, l1, l2, l3⟩ := ih4 b2 h2
      obtain ⟨_, bb, hbbmem, m1, m2, m3⟩ := hupd2 bb2 hbb2
      exact ⟨hBi, bb, hbbmem, l1.trans m1, l2.trans m2, l3.trans m3⟩

/-- The post-settlement undelegation retry loop does nothing when the
round is (already) not delegated, which is the only way the settlement
path reaches it. -/
theorem postSettle_id (o : SettleOracle) (w : World)
    (h : ∀ r, w.round = some r → (r.delegateTx.isSome && r.undelegateTx.isNone) = false) :
    postSettle o w = w := by
  unfold postSettle
  cases hr : w.round with
  | none => rfl
  | some r =>
    show (if (r.delegateTx.isSome && r.undelegateTx.isNone) = true
        then retryUndeleg o w else w) = w
    rw [h r hr]
    simp


theorem setRound_round (w : World) (f : RoundRec → RoundRec) :
    (setRound w f).round = w.round.map f := rfl

theorem afterDeleg_inv (o : SettleOracle) (oc : Outcome) (pend : List BetRec) (w : World)
    (hso : ∀ p ∈ pend, ∀ bb ∈ w.bets, bb.id = p.id → bb.stake = p.stake ∧ bb.odds = p.odds)
    (hB : ∀ b ∈ w.bets, BInv b)
    (hR : ∀ r, w.round = some r → RInv r)
    (hund : ∀ r, w.round = some r → (r.delegateTx.isSome && r.undelegateTx.isNone) = false) :
    ((afterDeleg o oc pend w).1.bets.map BetRec.id = w.bets.map BetRec.id) ∧
    ((afterDeleg o oc pend w).1.nextId = w.nextId) ∧
    (∀ b2 ∈ (afterDeleg o oc pend w).1.bets, BInv b2) ∧
    (∀ r2, (afterDeleg o oc pend w).1.round = some r2 → RInv r2) := by
  unfold afterDeleg
  cases o.waitOutcome with
  | error m => exact ⟨rfl, rfl, hB, hR⟩
  | ok u =>
    obtain ⟨s1, s2, s3, s4⟩ := settleLoop_inv o oc pend w hso hB
    cases hsl : settleLoop o oc pend w with
    | mk w1 res =>
      rw [hsl] at s1 s2 s3 s4
      cases res with
      | error m =>
        exact ⟨s1, s2, fun b2 h2 => (s4 b2 h2).1, fun r2 hr2 => hR r2 (s3 ▸ hr2)⟩
      | ok u2 =>
        have hw2und : ∀ r2,
            (setRound w1 fun r => { r with status := RoundStatus.settled }).round = some r2 →
            (r2.delegateTx.isSome && r2.undelegateTx.isNone) = false := by
          intro r2 hr2
          rw [setRound_round, s3] at hr2
          cases hrw : w.round with
          | none =>
            rw [hrw] at hr2
            cases hr2
          | some r =>
            rw [hrw] at hr2
            obtain rfl := (Option.some.inj hr2).symm
            exact hund r hrw
        have hps : postSettle o (setRound w1 fun r => { r with status := RoundStatus.settled })
            = setRound w1 fun r => { r with status := RoundStatus.settled } :=
          postSettle_id o _ hw2und
        refine ⟨?_, ?_, ?_, ?_⟩
        · show (postSettle o
              (setRound w1 fun r => { r with status := RoundStatus.settled })).bets.map
              BetRec.id = w.bets.map BetRec.id
          rw [hps]
          exact s1
        · show (postSettle o
              (setRound w1 fun r => { r with status := RoundStatus.settled })).nextId = w.nextId
          rw [hps]
          exact s2
        · show ∀ b2 ∈ (postSettle o
              (setRound w1 fun r => { r with status := RoundStatus.settled })).bets, BInv b2
          rw [hps]
          exact fun b2 h2 => (s4 b2 h2).1
        · show ∀ r2, (postSettle o
              (setRound w1 fun r => { r with status := RoundStatus.settled })).round = some r2 →
              RInv r2
          rw [hps]
          exact fun r2 hr2 _ => hw2und r2 hr2

theorem runTry_inv (w : World) (o : SettleOracle)
    (hnd : (w.bets.map BetRec.id).Nodup)
    (hB : ∀ b ∈ w.bets, BInv b)
    (hR : ∀ r, w.round = some r → RInv r) :
    ((runTry w o).1.bets.map BetRec.id = w.bets.map BetRec.id) ∧
    ((runTry w o).1.nextId = w.nextId) ∧
    (∀ b2 ∈ (runTry w o).1.bets, BInv b2) ∧
    (∀ r2, (runTry w o).1.round = some r2 → RInv r2) := by
  have hso : ∀ p ∈ w.bets.filter (fun b => b.status == BetStatus.pending),
      ∀ bb ∈ w.bets, bb.id = p.id → bb.stake = p.stake ∧ bb.odds = p.odds := by
    intro p hp bb hbb hid
    have hpm := (List.mem_filter.mp hp).1
    have heq : bb = p := List.inj_on_of_nodup_map hnd hbb hpm hid
    rw [heq]
    exact ⟨rfl, rfl⟩
  unfold runTry
  split
  next hrw => exact ⟨rfl, rfl, hB, fun r2 hr2 => hR r2 (hrw ▸ hr2)⟩
  next r hrw =>
    split
    next hoc => exact ⟨rfl, rfl, hB, fun r2 hr2 => hR r2 (hrw ▸ hr2)⟩
    next oc hoc =>
      split
      case isTrue hmp =>
        split
        case isTrue hdg =>
          split
          next m hcu => exact ⟨rfl, rfl, hB, fun r2 hr2 => hR r2 (hrw ▸ hr2)⟩
          next er base hcu =>
            have hund1 : ∀ r2, (setRound w fun rr =>
                { rr with undelegateTx := some er, baseUndelegateTx := some base }).round =
                some r2 → (r2.delegateTx.isSome && r2.undelegateTx.isNone) = false := by
              intro r2 hr2
              rw [setRound_round, hrw] at hr2
              obtain rfl := (Option.some.inj hr2).symm
              simp
            have hR1 : ∀ r2, (setRound w fun rr =>
                { rr with undelegateTx := some er, baseUndelegateTx := some base }).round =
                some r2 → RInv r2 := fun r2 hr2 _ => hund1 r2 hr2
            split
            next m hen => exact ⟨rfl, rfl, hB, hR1⟩
            next u hen =>
              exact afterDeleg_inv o oc _
                (setRound w fun rr =>
                  { rr with undelegateTx := some er, baseUndelegateTx := some base })
                hso hB hR1 hund1
        case isFalse hdg =>
          have hund : ∀ r2, w.round = some r2 →
              (r2.delegateTx.isSome && r2.undelegateTx.isNone) = false := by
            intro r2 hr2
            rw [hrw] at hr2
            obtain rfl := (Option.some.inj hr2).symm
            exact Bool.not_eq_true _ ▸ eq_false_of_ne_true hdg
          exact afterDeleg_inv o oc _ w hso hB hR hund
      case isFalse hmp => exact ⟨rfl, rfl, hB, fun r2 hr2 => hR r2 (hrw ▸ hr2)⟩

theorem refundFallback_inv (w : World) (o : SettleOracle)
    (hnd : (w.bets.map BetRec.id).Nodup)
    (hB : ∀ b ∈ w.bets, BInv b)
    (hR : ∀ r, w.round = some r → RInv r) :
    ((refundFallback w o).1.bets.map BetRec.id = w.bets.map BetRec.id) ∧
    ((refundFallback w o).1.nextId = w.nextId) ∧
    (∀ b2 ∈ (refundFallback w o).1.bets, BInv b2) ∧
    (∀ r2, (refundFallback w o).1.round = some r2 → RInv r2) := by
  unfold refundFallback
  split
  next hrw => exact ⟨rfl, rfl, hB, fun r2 hr2 => hR r2 (hrw ▸ hr2)⟩
  next r hrw =>
    split
    next m hen =>
      simp only []
      split <;> exact ⟨rfl, rfl, hB, fun r2 hr2 => hR r2 (hrw ▸ hr2)⟩
    next u hen =>
      simp only []
      split
      next hemp => exact ⟨rfl, rfl, hB, fun r2 hr2 => hR r2 (hrw ▸ hr2)⟩
      next hemp =>
        have hso : ∀ p ∈ w.bets.filter (fun b => b.status == BetStatus.pending),
            ∀ bb ∈ w.bets, bb.id = p.id → bb.stake = p.stake ∧ bb.odds = p.odds := by
          intro p hp bb hbb hid
          have hpm := (List.mem_filter.mp hp).1
          have heq : bb = p := List.inj_on_of_nodup_map hnd hbb hpm hid
          rw [heq]
          exact ⟨rfl, rfl⟩
        obtain ⟨l1, l2, l3, l4⟩ := refundLoop_inv o o.mintPresent _ w hso hB
        refine ⟨l1, l2, fun b2 h2 => (l4 b2 h2).1, ?_⟩
        intro r2 hr2
        rw [setRound_round, l3, hrw] at hr2
        obtain rfl := (Option.some.inj hr2).symm
        intro hst
        cases hst

theorem processJob_inv (w : World) (o : SettleOracle)
    (hnd : (w.bets.map BetRec.id).Nodup)
    (hB : ∀ b ∈ w.bets, BInv b)
    (hR : ∀ r, w.round = some r → RInv r) :
    ((processBetSettlementJob w o).1.bets.map BetRec.id = w.bets.map BetRec.id) ∧
    ((processBetSettlementJob w o).1.nextId = w.nextId) ∧
    (∀ b2 ∈ (processBetSettlementJob w o).1.bets, BInv b2) ∧
    (∀ r2, (processBetSettlementJob w o).1.round = some r2 → RInv r2) := by
  obtain ⟨t1, t2, t3, t4⟩ := runTry_inv w o hnd hB hR
  unfold processBetSettlementJob
  split
  next w1 u hrt =>
    rw [hrt] at t1 t2 t3 t4
    exact ⟨t1, t2, t3, t4⟩
  next w1 m hrt =>
    rw [hrt] at t1 t2 t3 t4
    split
    · exact ⟨t1, t2, t3, t4⟩
    · split
      · exact ⟨t1, t2, t3, t4⟩
      · have hnd1 : (w1.bets.map BetRec.id).Nodup := t1 ▸ hnd
        obtain ⟨f1, f2, f3, f4⟩ := refundFallback_inv w1 o hnd1 t3 t4
        exact ⟨f1.trans t1, f2.trans t2, f3, f4⟩

/-- `refundBets` (the admin endpoint) preserves ids and the bet
invariant, and the round it writes is `FAILED`, never `SETTLED`. -/
theorem refundBets_inv (w : World) (o : AdminRefundOracle)
    (hnd : (w.bets.map BetRec.id).Nodup)
    (hB : ∀ b ∈ w.bets, BInv b)
    (hR : ∀ r, w.round = some r → RInv r) :
    ((refundBets w o).1.bets.map BetRec.id = w.bets.map BetRec.id) ∧
    ((refundBets w o).1.nextId = w.nextId) ∧
    (∀ b2 ∈ (refundBets w o).1.bets, BInv b2) ∧
    (∀ r2, (refundBets w o).1.round = some r2 → RInv r2) := by
  unfold refundBets
  split
  next hrw => exact ⟨rfl, rfl, hB, fun r2 hr2 => hR r2 (hrw ▸ hr2)⟩
  next r hrw =>
    split
    next hmp =>
      simp only []
      have hso : ∀ p ∈ w.bets.filter (fun b => b.status == BetStatus.pending),
          ∀ bb ∈ w.bets, bb.id = p.id → bb.stake = p.stake ∧ bb.odds = p.odds := by
        intro p hp bb hbb hid
        have hpm := (List.mem_filter.mp hp).1
        have heq : bb = p := List.inj_on_of_nodup_map hnd hbb hpm hid
        rw [heq]
        exact ⟨rfl, rfl⟩
      obtain ⟨l1, l2, l3, l4⟩ := adminRefundLoop_inv o _ w hso hB
      refine ⟨l1, l2, fun b2 h2 => (l4 b2 h2).1, ?_⟩
      intro r2 hr2
      rw [setRound_round, l3, hrw] at hr2
      obtain rfl := (Option.some.inj hr2).symm
      intro hst
      cases hst
    next hmp => exact ⟨rfl, rfl, hB, fun r2 hr2 => hR r2 (hrw ▸ hr2)⟩

theorem postSettle_bets (o : SettleOracle) (v : World) : (postSettle o v).bets = v.bets := by
  unfold postSettle
  split
  · rfl
  · split
    · unfold retryUndeleg
      split
      · rfl
      · split
        · rfl
        · split
          · rfl
          · rfl
    · rfl

theorem settleLoop_no_new_refund (o : SettleOracle) (oc : Outcome) (pend : List BetRec)
    (w : World) :
    ∀ b2 ∈ (settleLoop o oc pend w).1.bets, b2.status = BetStatus.refunded →
      ∃ bb ∈ w.bets, bb.status = BetStatus.refunded := by
  induction pend generalizing w with
  | nil => exact fun b2 h2 hrf => ⟨b2, h2, hrf⟩
  | cons p rest ih =>
    simp only [settleLoop]
    cases p.wallet with
    | none => exact fun b2 h2 hrf => ⟨b2, h2, hrf⟩
    | some v =>
      cases o.settleBet p.id with
      | error m => exact fun b2 h2 hrf => ⟨b2, h2, hrf⟩
      | ok tx =>
        intro b2 h2 hrf
        obtain ⟨bb2, hbb2, hrf2⟩ := ih _ b2 h2 hrf
        obtain ⟨bb, hbbmem, hcase⟩ := mem_updateBet hbb2
        rcases hcase with heq | ⟨hbid, heq⟩
        · subst heq
          exact ⟨bb2, hbbmem, hrf2⟩
        · subst heq
          exfalso
          cases hw : checkBetWon p.selection oc <;> simp [hw] at hrf2

theorem runTry_no_new_refund (w : World) (o : SettleOracle) :
    ∀ b2 ∈ (runTry w o).1.bets, b2.status = BetStatus.refunded →
      ∃ bb ∈ w.bets, bb.status = BetStatus.refunded := by
  have hafter : ∀ (oc : Outcome) (pend : List BetRec) (w1 : World), w1.bets = w.bets →
      ∀ b2 ∈ (afterDeleg o oc pend w1).1.bets, b2.status = BetStatus.refunded →
        ∃ bb ∈ w.bets, bb.status = BetStatus.refunded := by
    intro oc pend w1 hb
    unfold afterDeleg
    cases o.waitOutcome with
    | error m => exact fun b2 h2 hrf => ⟨b2, hb ▸ h2, hrf⟩
    | ok u =>
      cases hsl : settleLoop o oc pend w1 with
      | mk w2 res =>
        cases res with
        | error m =>
          intro b2 h2 hrf
          have h2w : b2 ∈ (settleLoop o oc pend w1).1.bets := by
            rw [hsl]
            exact h2
          obtain ⟨bb, hbb, h⟩ := settleLoop_no_new_refund o oc pend w1 b2 h2w hrf
          exact ⟨bb, hb ▸ hbb, h⟩
        | ok u2 =>
          intro b2 h2 hrf
          have h2r : b2 ∈ (postSettle o
              (setRound w2 fun r => { r with status := RoundStatus.settled })).bets := h2
          rw [postSettle_bets] at h2r
          have h2w : b2 ∈ (settleLoop o oc pend w1).1.bets := by
            rw [hsl]
            exact h2r
          obtain ⟨bb, hbb, h⟩ := settleLoop_no_new_refund o oc pend w1 b2 h2w hrf
          exact ⟨bb, hb ▸ hbb, h⟩
  unfold runTry
  split
  next hrw => exact fun b2 h2 hrf => ⟨b2, h2, hrf⟩
  next r hrw =>
    split
    next hoc => exact fun b2 h2 hrf => ⟨b2, h2, hrf⟩
    next oc hoc =>
      split
      case isTrue hmp =>
        split
        case isTrue hdg =>
          split
          next m hcu => exact fun b2 h2 hrf => ⟨b2, h2, hrf⟩
          next er base hcu =>
            split
            next m hen => exact fun b2 h2 hrf => ⟨b2, h2, hrf⟩
            next u hen => exact hafter oc _ _ rfl
        case isFalse hdg => exact hafter oc _ _ rfl
      case isFalse hmp => exact fun b2 h2 hrf => ⟨b2, h2, hrf⟩

theorem refundFallback_ensure_fail (w : World) (o : SettleOracle) (m0 : String)
    (he : o.ensureUndelegated2 = .error m0) : (refundFallback w o).1 = w := by
  unfold refundFallback
  split
  next hrw => rfl
  next r hrw =>
    split
    next m hen =>
      simp only []
      split
      · rfl
      · rfl
    next u hen =>
      rw [he] at hen
      cases hen

/-- The settlement job never newly refunds a bet when the pre-refund
undelegation confirmation fails. -/
theorem processJob_refund_guard (w : World) (o : SettleOracle) (m0 : String)
    (he : o.ensureUndelegated2 = .error m0) :
    ∀ b2 ∈ (processBetSettlementJob w o).1.bets, b2.status = BetStatus.refunded →
      ∃ bb ∈ w.bets, bb.status = BetStatus.refunded := by
  have ht := runTry_no_new_refund w o
  unfold processBetSettlementJob
  split
  next w1 u hrt =>
    rw [hrt] at ht
    exact ht
  next w1 m hrt =>
    rw [hrt] at ht
    split
    · exact ht
    · split
      · exact ht
      · rw [refundFallback_ensure_fail w1 o m0 he]
        exact ht

/-- The Bet document created by `confirmBet` (bets.service.ts lines
517-526): status `PENDING`, odds fixed by the odds engine at creation
time, payout absent. -/
def mkBet (i : Nat) (sel : Selection) (stake : ℚ) (wallet : Option Nat)
    (mt : MarketType) (edge : ℚ) : BetRec :=
  { id := i, status := .pending, stake := stake, odds := calculateOdds sel mt edge,
    payout := none, selection := sel, wallet := wallet, settleTx := none, refundTx := none }

/-- The operations that write the Round and Bet documents of one round:
bet creation by the confirmation service (guarded by the round-status
check of `confirmBet`: `PREDICTING` or `LOCKED`), the out-of-scope round
lifecycle (locking, outcome reveal, delegation during the betting
window), the settlement job, and the admin refund endpoint. -/
inductive SysStep : World → World → Prop where
  | confirm (w : World) (sel : Selection) (stake : ℚ) (wallet : Option Nat) (r : RoundRec)
      (hr : w.round = some r)
      (hst : r.status = .predicting ∨ r.status = .locked) :
      SysStep w { w with
        bets := mkBet w.nextId sel stake wallet w.marketType w.houseEdge :: w.bets,
        nextId := w.nextId + 1 }
  | lock (w : World) (r : RoundRec) (hr : w.round = some r) (hst : r.status = .predicting) :
      SysStep w (setRound w fun rr => { rr with status := .locked })
  | reveal (w : World) (oc : Outcome) :
      SysStep w (setRound w fun rr => { rr with outcome := some oc })
  | delegate (w : World) (tx : Nat) (r : RoundRec) (hr : w.round = some r)
      (hst : r.status = .predicting) :
      SysStep w (setRound w fun rr => { rr with delegateTx := some tx })
  | settle (w : World) (o : SettleOracle) :
      SysStep w (processBetSettlementJob w o).1
  | adminRefund (w : World) (o : AdminRefundOracle) :
      SysStep w (refundBets w o).1

/-- Initial states: a freshly opened round accepting bets, not delegated,
no bets yet. -/
def SysInit (w : World) : Prop :=
  (∃ r, w.round = some r ∧ r.status = .predicting ∧ r.delegateTx = none ∧
    r.undelegateTx = none) ∧ w.bets = []

/-- Reachable states of the round/bet database. -/
def SysReach (w : World) : Prop :=
  ∃ w0, SysInit w0 ∧ Relation.ReflTransGen SysStep w0 w

/-- The inductive system invariant: fresh ids, distinct ids, the per-bet
payout invariant, the per-round delegation invariant. -/
def WInv (w : World) : Prop :=
  (∀ b ∈ w.bets, b.id < w.nextId) ∧
  ((w.bets.map BetRec.id).Nodup) ∧
  (∀ b ∈ w.bets, BInv b) ∧
  (∀ r, w.round = some r → RInv r)

theorem sysStep_WInv {w w2 : World} (hstep : SysStep w w2) (hI : WInv w) : WInv w2 := by
  obtain ⟨h1, h2, h3, h4⟩ := hI
  cases hstep with
  | confirm sel stake wallet r hr hst =>
    refine ⟨?_, ?_, ?_, h4⟩
    · intro b hb
      rcases List.mem_cons.mp hb with rfl | hb
      · exact Nat.lt_succ_self _
      · exact Nat.lt_succ_of_lt (h1 b hb)
    · refine List.nodup_cons.mpr ⟨?_, h2⟩
      intro hmem
      obtain ⟨b, hb, hid⟩ := List.mem_map.mp hmem
      exact absurd (hid ▸ h1 b hb) (Nat.lt_irrefl _)
    · intro b hb
      rcases List.mem_cons.mp hb with rfl | hb
      · exact ⟨fun _ => rfl, fun h => by simp [mkBet] at h, fun h => by simp [mkBet] at h,
          fun h => by simp [mkBet] at h⟩
      · exact h3 b hb
  | lock r hr hst =>
    refine ⟨h1, h2, h3, ?_⟩
    intro r2 hr2
    rw [setRound_round, hr] at hr2
    obtain rfl := (Option.some.inj hr2).symm
    intro h
    cases h
  | reveal oc =>
    refine ⟨h1, h2, h3, ?_⟩
    intro r2 hr2
    rw [setRound_round] at hr2
    cases hrw : w.round with
    | none =>
      rw [hrw] at hr2
      cases hr2
    | some r =>
      rw [hrw] at hr2
      obtain rfl := (Option.some.inj hr2).symm
      intro h
      exact h4 r hrw h
  | delegate tx r hr hst =>
    refine ⟨h1, h2, h3, ?_⟩
    intro r2 hr2
    rw [setRound_round, hr] at hr2
    obtain rfl := (Option.some.inj hr2).symm
    intro h
    exact absurd h (by simp [hst])
  | settle o =>
    obtain ⟨p1, p2, p3, p4⟩ := processJob_inv w o h2 h3 h4
    refine ⟨?_, p1.symm ▸ h2, p3, p4⟩
    intro b hb
    have hmm : b.id ∈ (processBetSettlementJob w o).1.bets.map BetRec.id :=
      List.mem_map_of_mem _ hb
    rw [p1] at hmm
    obtain ⟨bb, hbb, hid⟩ := List.mem_map.mp hmm
    rw [p2, ← hid]
    exact h1 bb hbb
  | adminRefund o =>
    obtain ⟨p1, p2, p3, p4⟩ := refundBets_inv w o h2 h3 h4
    refine ⟨?_, p1.symm ▸ h2, p3, p4⟩
    intro b hb
    have hmm : b.id ∈ (refundBets w o).1.bets.map BetRec.id :=
      List.mem_map_of_mem _ hb
    rw [p1] at hmm
    obtain ⟨bb, hbb, hid⟩ := List.mem_map.mp hmm
    rw [p2, ← hid]
    exact h1 bb hbb

theorem sysReach_WInv {w : World} (h : SysReach w) : WInv w := by
  obtain ⟨w0, hinit, hsteps⟩ := h
  have h0 : WInv w0 := by
    obtain ⟨⟨r, hr, hst, hd, hu⟩, hb⟩ := hinit
    refine ⟨?_, ?_, ?_, ?_⟩
    · rw [hb]
      intro b hb2
      cases hb2
    · rw [hb]
      exact List.nodup_nil
    · rw [hb]
      intro b hb2
      cases hb2
    · intro r2 hr2
      rw [hr] at hr2
      obtain rfl := (Option.some.inj hr2).symm
      intro h2
      rw [hst] at h2
      cases h2
  induction hsteps with
  | refl => exact h0
  | tail hs hstep ih => exact sysStep_WInv hstep ih


/-- C5 (amended): in every reachable state a round is never `SETTLED`
while delegated, and the settlement worker never newly refunds a bet when
its pre-refund undelegation confirmation fails — every worker path that
refunds first ensures the round is undelegated.  (The admin refund
endpoint `refundBets` does NOT check delegation — see the
counterexample.) -/
theorem c5_amended :
    (∀ w, SysReach w → ∀ r, w.round = some r → r.status = RoundStatus.settled →
      ¬(r.delegateTx.isSome = true ∧ r.undelegateTx = none)) ∧
    (∀ (w : World) (o : SettleOracle) (m : String), o.ensureUndelegated2 = .error m →
      ∀ b2 ∈ (processBetSettlementJob w o).1.bets, b2.status = BetStatus.refunded →
        ∃ b ∈ w.bets, b.status = BetStatus.refunded) := by
  constructor
  · intro w hw r hr hst hcon
    obtain ⟨hd, hu⟩ := hcon
    have hri := (sysReach_WInv hw).2.2.2 r hr hst
    rw [hd, hu] at hri
    simp at hri
  · intro w o m he b2 hb2 hrf
    exact processJob_refund_guard w o m he b2 hb2 hrf

def c5hr0 : RoundRec :=
  { status := .predicting, outcome := none, delegateTx := none, undelegateTx := none,
    baseUndelegateTx := none, settledAtSet := false }

def c5h0 : World :=
  { round := some c5hr0, bets := [], marketType := .evenOdd, houseEdge := 0, nextId := 0 }

def c5h1 : World := setRound c5h0 fun rr => { rr with outcome := some (.numeric 3) }

def c5hO : SettleOracle :=
  { mintPresent := true, commitUndelegate1 := .ok (7, 8), ensureUndelegated1 := .ok (),
    waitOutcome := .ok (), settleBet := fun _ => .ok 0, settleRound := .ok 0,
    commitUndelegateRetry := fun _ => .ok (7, 8), ensureUndelegated2 := .ok (),
    refundBet := fun _ => .ok 0 }

def c5hW : World := (processBetSettlementJob c5h1 c5hO).1

def c5hR : RoundRec :=
  { status := .settled, outcome := some (.numeric 3), delegateTx := none,
    undelegateTx := none, baseUndelegateTx := none, settledAtSet := false }

def c5eB : BetRec :=
  { id := 0, status := .refunded, stake := 1, odds := 2, payout := some 1,
    selection := .parity .even, wallet := some 5, settleTx := none, refundTx := none }

def c5eW : World :=
  { round := none, bets := [c5eB], marketType := .evenOdd, houseEdge := 0, nextId := 1 }

def c5eO : SettleOracle :=
  { mintPresent := true, commitUndelegate1 := .ok (7, 8), ensureUndelegated1 := .ok (),
    waitOutcome := .ok (), settleBet := fun _ => .ok 0, settleRound := .ok 0,
    commitUndelegateRetry := fun _ => .ok (7, 8),
    ensureUndelegated2 := .error ("cannot confirm undelegation"),
    refundBet := fun _ => .ok 0 }

/-- Witness for C5 (amended): a reachable settled round satisfying the
invariant, and a run with a failing undelegation check whose only
refunded bet pre-existed. -/
theorem c5_amended_witness :
    (¬(c5hR.delegateTx.isSome = true ∧ c5hR.undelegateTx = none)) ∧
    (∃ b ∈ c5eW.bets, b.status = BetStatus.refunded) :=
  ⟨c5_amended.1 c5hW
      ⟨c5h0, ⟨⟨c5hr0, rfl, rfl, rfl, rfl⟩, rfl⟩,
        Relation.ReflTransGen.tail
          (Relation.ReflTransGen.single (SysStep.reveal c5h0 (.numeric 3)))
          (SysStep.settle c5h1 c5hO)⟩
      c5hR rfl rfl,
    c5_amended.2 c5eW c5eO ("cannot confirm undelegation") rfl c5eB
      (List.mem_cons_self _ _) rfl⟩

def c5cr0 : RoundRec :=
  { status := .predicting, outcome := none, delegateTx := none, undelegateTx := none,
    baseUndelegateTx := none, settledAtSet := false }

def c5c0 : World :=
  { round := some c5cr0, bets := [], marketType := .evenOdd, houseEdge := 0, nextId := 0 }

def c5c1 : World := setRound c5c0 fun rr => { rr with delegateTx := some 3 }

def c5c2 : World := { c5c1 with
  bets := mkBet c5c1.nextId (.parity .even) 1 (some 9) c5c1.marketType c5c1.houseEdge ::
    c5c1.bets,
  nextId := c5c1.nextId + 1 }

def c5c3 : World := setRound c5c2 fun rr => { rr with status := .locked }

def c5cO : AdminRefundOracle := { mintPresent := true, refundBet := fun _ => .ok 77 }

def c5c4 : World := (refundBets c5c3 c5cO).1

/-- C5 (counterexample to the claim as stated): the admin refund endpoint
refunds a bet of a round that is still delegated.  In the reachable state
below the round was delegated during betting (delegateTxHash present, no
undelegateTxHash); `refundBets` refunds the pending bet and marks the
round `FAILED` without any delegation check. -/
theorem c5_counterexample :
    SysReach c5c4 ∧
    (∃ r4, c5c4.round = some r4 ∧ r4.delegateTx = some 3 ∧ r4.undelegateTx = none) ∧
    (∃ b ∈ c5c4.bets, b.status = BetStatus.refunded ∧ b.payout = some 1) := by
  refine ⟨⟨c5c0, ⟨⟨c5cr0, rfl, rfl, rfl, rfl⟩, rfl⟩, ?_⟩, ⟨_, rfl, rfl, rfl⟩, ?_⟩
  · exact Relation.ReflTransGen.tail (Relation.ReflTransGen.tail
      (Relation.ReflTransGen.tail
        (Relation.ReflTransGen.single (SysStep.delegate c5c0 3 c5cr0 rfl rfl))
        (SysStep.confirm c5c1 (.parity .even) 1 (some 9) _ rfl (.inl rfl)))
      (SysStep.lock c5c2 _ rfl rfl))
      (SysStep.adminRefund c5c3 c5cO)
  · exact ⟨_, List.mem_cons_self _ _, rfl, rfl⟩

/-- C6 (amended): in every reachable state, a bet's `payout` is defined
iff its status is NOT `PENDING`: it equals `stake * odds` when `WON`,
0 when `LOST` (the claim wrongly said `payout` is absent for `LOST`),
and `stake` when `REFUNDED`. -/
theorem c6_amended (w : World) (hw : SysReach w) :
    ∀ b ∈ w.bets,
      (b.payout ≠ none ↔ b.status ≠ BetStatus.pending) ∧
      (b.status = BetStatus.won → b.payout = some (b.stake * b.odds)) ∧
      (b.status = BetStatus.lost → b.payout = some 0) ∧
      (b.status = BetStatus.refunded → b.payout = some b.stake) := by
  intro b hb
  obtain ⟨p1, p2, p3, p4⟩ := (sysReach_WInv hw).2.2.1 b hb
  refine ⟨⟨fun hne hpend => hne (p1 hpend), fun hnp => ?_⟩, p2, p3, p4⟩
  cases hstatus : b.status with
  | pending => exact absurd hstatus hnp
  | won =>
    rw [p2 hstatus]
    simp
  | lost =>
    rw [p3 hstatus]
    simp
  | refunded =>
    rw [p4 hstatus]
    simp

def c6wr0 : RoundRec :=
  { status := .predicting, outcome := none, delegateTx := none, undelegateTx := none,
    baseUndelegateTx := none, settledAtSet := false }

def c6w0 : World :=
  { round := some c6wr0, bets := [], marketType := .evenOdd, houseEdge := 0, nextId := 0 }

def c6wB : BetRec :=
  mkBet c6w0.nextId (.parity .even) 1 (some 5) c6w0.marketType c6w0.houseEdge

def c6w1 : World := { c6w0 with bets := c6wB :: c6w0.bets, nextId := c6w0.nextId + 1 }

/-- Witness for C6 (amended) at a freshly confirmed bet. -/
theorem c6_amended_witness :
    (c6wB.payout ≠ none ↔ c6wB.status ≠ BetStatus.pending) ∧
    (c6wB.status = BetStatus.won → c6wB.payout = some (c6wB.stake * c6wB.odds)) ∧
    (c6wB.status = BetStatus.lost → c6wB.payout = some 0) ∧
    (c6wB.status = BetStatus.refunded → c6wB.payout = some c6wB.stake) :=
  c6_amended c6w1
    ⟨c6w0, ⟨⟨c6wr0, rfl, rfl, rfl, rfl⟩, rfl⟩,
      Relation.ReflTransGen.single
        (SysStep.confirm c6w0 (.parity .even) 1 (some 5) c6wr0 rfl (.inl rfl))⟩
    c6wB (List.mem_cons_self _ _)

def c6cr0 : RoundRec :=
  { status := .predicting, outcome := none, delegateTx := none, undelegateTx := none,
    baseUndelegateTx := none, settledAtSet := false }

def c6c0 : World :=
  { round := some c6cr0, bets := [], marketType := .evenOdd, houseEdge := 0, nextId := 0 }

def c6c1 : World := { c6c0 with
  bets := mkBet c6c0.nextId (.parity .even) 1 (some 5) c6c0.marketType c6c0.houseEdge ::
    c6c0.bets,
  nextId := c6c0.nextId + 1 }

def c6c2 : World := setRound c6c1 fun rr => { rr with status := .locked }

def c6c3 : World := setRound c6c2 fun rr => { rr with outcome := some (.numeric 3) }

def c6cO : SettleOracle :=
  { mintPresent := true, commitUndelegate1 := .ok (7, 8), ensureUndelegated1 := .ok (),
    waitOutcome := .ok (), settleBet := fun _ => .ok 55, settleRound := .ok 0,
    commitUndelegateRetry := fun _ => .ok (7, 8), ensureUndelegated2 := .ok (),
    refundBet := fun _ => .ok 0 }

def c6c4 : World := (processBetSettlementJob c6c3 c6cO).1

/-- C6 (counterexample to the claim as stated): settling a losing bet
stores `payout = 0` — the payout field is defined while the status is
`LOST`, contradicting the claim that payout is null/absent for `LOST`. -/
theorem c6_counterexample :
    SysReach c6c4 ∧ ∃ b ∈ c6c4.bets, b.status = BetStatus.lost ∧ b.payout = some 0 := by
  refine ⟨⟨c6c0, ⟨⟨c6cr0, rfl, rfl, rfl, rfl⟩, rfl⟩, ?_⟩, ?_⟩
  · exact Relation.ReflTransGen.tail (Relation.ReflTransGen.tail
      (Relation.ReflTransGen.tail
        (Relation.ReflTransGen.single
          (SysStep.confirm c6c0 (.parity .even) 1 (some 5) c6cr0 rfl (.inl rfl)))
        (SysStep.lock c6c1 _ rfl rfl))
      (SysStep.reveal c6c2 (.numeric 3)))
      (SysStep.settle c6c3 c6cO)
  · exact ⟨_, List.mem_cons_self _ _, rfl, rfl⟩


/-- Program counter of one in-flight `confirmBet` call, one position per
await point of `confirmBet` / `processBetConfirmation`. -/
inductive CPC where
  | start
  | lookupDup
  | lookupCache
  | checkRound
  | pollChain
  | create
  | writeCache (i : Nat)
  | done (i : Nat)
  | failed (msg : String)
  deriving DecidableEq, Repr

/-- One in-flight `confirmBet` call: its `txSignature` argument and its
program counter. -/
structure CThread where
  sig : String
  pc : CPC
  deriving DecidableEq, Repr

/-- Shared state of the confirmation subsystem: the Bet collection as
(id, txSignature) pairs, the `bet-confirm:{sig}` redis cache, the
`bet-confirm-lock:{sig}` redis locks, the in-flight calls, and the id
allocator. -/
structure ConfSt where
  bets : List (Nat × String)
  cache : String → Option Nat
  locks : String → Bool
  threads : List CThread
  nextId : Nat

/-- Replace the program counter of the n-th thread. -/
def setPC : List CThread → Nat → CPC → List CThread
  | [], _, _ => []
  | t :: ts, 0, p => { t with pc := p } :: ts
  | t :: ts, Nat.succ n, p => t :: setPC ts n p

theorem setPC_get {ts : List CThread} {n : Nat} {t : CThread} (p : CPC)
    (ht : ts.get? n = some t) :
    (setPC ts n p).get? n = some { t with pc := p } := by
  induction ts generalizing n with
  | nil => simp [List.get?] at ht
  | cons a as ih =>
    cases n with
    | zero =>
      simp only [List.get?] at ht
      injection ht with ht
      subst ht
      rfl
    | succ m =>
      simp only [List.get?] at ht
      simp only [setPC, List.get?]
      exact ih ht

theorem mem_setPC {ts : List CThread} {n : Nat} {t : CThread} {p : CPC}
    (ht : ts.get? n = some t) :
    ∀ t' ∈ setPC ts n p, t' ∈ ts ∨ t' = { t with pc := p } := by
  induction ts generalizing n with
  | nil => intro t' h; simp [setPC] at h
  | cons a as ih =>
    intro t' h
    cases n with
    | zero =>
      simp only [List.get?] at ht
      injection ht with ht
      subst ht
      rw [setPC] at h
      rcases List.mem_cons.mp h with h | h
      · exact Or.inr h
      · exact Or.inl (List.mem_cons_of_mem _ h)
    | succ m =>
      simp only [List.get?] at ht
      rw [setPC] at h
      rcases List.mem_cons.mp h with h | h
      · exact Or.inl (h ▸ List.mem_cons_self _ _)
      · rcases ih ht t' h with h2 | h2
        · exact Or.inl (List.mem_cons_of_mem _ h2)
        · exact Or.inr h2

/-- Modelled from the spec: the Bet collection has a unique index on
`txSignature` ("`txSignature` unique (idempotency key)"), so `Bet.create`
atomically either inserts a fresh document (no existing document with
that signature) or fails with duplicate-key error 11000 when one exists;
the schema file itself is not under `src/`.  Everything else is a direct
transliteration of `confirmBet` (bets.service.ts lines 96-146) and
`processBetConfirmation` (lines 467-549): lock acquire NX EX 30 /
lock-held fallback to Bet.findOne then the signature cache with
Bet.findById, the round status gate, the on-chain poll of the bet
account, create with the 11000 duplicate handler that re-fetches by
signature and returns it, and the cache write after create.  Locks expire
(TTL); any interleaving of calls is allowed. -/
inductive CStep : ConfSt → ConfSt → Prop where
  | spawn (s : ConfSt) (sig : String) :
      CStep s { s with threads := s.threads ++ [⟨sig, CPC.start⟩] }
  | acquireOk (s : ConfSt) (n : Nat) (t : CThread)
      (ht : s.threads.get? n = some t) (hpc : t.pc = CPC.start)
      (hl : s.locks t.sig = false) :
      CStep s { s with
        locks := fun k => if k = t.sig then true else s.locks k,
        threads := setPC s.threads n CPC.checkRound }
  | acquireBusy (s : ConfSt) (n : Nat) (t : CThread)
      (ht : s.threads.get? n = some t) (hpc : t.pc = CPC.start)
      (hl : s.locks t.sig = true) :
      CStep s { s with threads := setPC s.threads n CPC.lookupDup }
  | dupHit (s : ConfSt) (n : Nat) (t : CThread) (i : Nat)
      (ht : s.threads.get? n = some t) (hpc : t.pc = CPC.lookupDup)
      (hmem : (i, t.sig) ∈ s.bets) :
      CStep s { s with threads := setPC s.threads n (CPC.done i) }
  | dupMiss (s : ConfSt) (n : Nat) (t : CThread)
      (ht : s.threads.get? n = some t) (hpc : t.pc = CPC.lookupDup)
      (hno : ∀ b ∈ s.bets, b.2 ≠ t.sig) :
      CStep s { s with threads := setPC s.threads n CPC.lookupCache }
  | cacheFetchOk (s : ConfSt) (n : Nat) (t : CThread) (i : Nat)
      (ht : s.threads.get? n = some t) (hpc : t.pc = CPC.lookupCache)
      (hc : s.cache t.sig = some i) (hdb : ∃ p ∈ s.bets, p.1 = i) :
      CStep s { s with threads := setPC s.threads n (CPC.done i) }
  | cacheFetchMiss (s : ConfSt) (n : Nat) (t : CThread) (i : Nat)
      (ht : s.threads.get? n = some t) (hpc : t.pc = CPC.lookupCache)
      (hc : s.cache t.sig = some i) (hdb : ∀ p ∈ s.bets, p.1 ≠ i) :
      CStep s { s with threads := setPC s.threads n CPC.checkRound }
  | cacheMiss (s : ConfSt) (n : Nat) (t : CThread)
      (ht : s.threads.get? n = some t) (hpc : t.pc = CPC.lookupCache)
      (hc : s.cache t.sig = none) :
      CStep s { s with threads := setPC s.threads n CPC.checkRound }
  | roundOk (s : ConfSt) (n : Nat) (t : CThread)
      (ht : s.threads.get? n = some t) (hpc : t.pc = CPC.checkRound) :
      CStep s { s with threads := setPC s.threads n CPC.pollChain }
  | roundFail (s : ConfSt) (n : Nat) (t : CThread)
      (ht : s.threads.get? n = some t) (hpc : t.pc = CPC.checkRound) :
      CStep s { s with threads := setPC s.threads n (CPC.failed ("Round is no longer accepting bet confirmations")) }
  | chainOk (s : ConfSt) (n : Nat) (t : CThread)
      (ht : s.threads.get? n = some t) (hpc : t.pc = CPC.pollChain) :
      CStep s { s with threads := setPC s.threads n CPC.create }
  | chainFail (s : ConfSt) (n : Nat) (t : CThread)
      (ht : s.threads.get? n = some t) (hpc : t.pc = CPC.pollChain) :
      CStep s { s with threads := setPC s.threads n (CPC.failed ("Bet transaction not confirmed on-chain; please try again")) }
  | createOk (s : ConfSt) (n : Nat) (t : CThread)
      (ht : s.threads.get? n = some t) (hpc : t.pc = CPC.create)
      (hno : ∀ b ∈ s.bets, b.2 ≠ t.sig) :
      CStep s { s with
        bets := (s.nextId, t.sig) :: s.bets,
        nextId := s.nextId + 1,
        threads := setPC s.threads n (CPC.writeCache s.nextId) }
  | createDup (s : ConfSt) (n : Nat) (t : CThread) (i : Nat)
      (ht : s.threads.get? n = some t) (hpc : t.pc = CPC.create)
      (hmem : (i, t.sig) ∈ s.bets) :
      CStep s { s with
        cache := fun k => if k = t.sig then some i else s.cache k,
        threads := setPC s.threads n (CPC.done i) }
  | writeCacheStep (s : ConfSt) (n : Nat) (t : CThread) (i : Nat)
      (ht : s.threads.get? n = some t) (hpc : t.pc = CPC.writeCache i) :
      CStep s { s with
        cache := fun k => if k = t.sig then some i else s.cache k,
        threads := setPC s.threads n (CPC.done i) }
  | lockExpire (s : ConfSt) (sig : String) :
      CStep s { s with locks := fun k => if k = sig then false else s.locks k }

/-- Initial state: empty Bet collection, empty cache, no locks held, no
in-flight calls. -/
def CInit (s : ConfSt) : Prop :=
  s.bets = [] ∧ (∀ k, s.cache k = none) ∧ (∀ k, s.locks k = false) ∧
  s.threads = [] ∧ s.nextId = 0

def CReach (s : ConfSt) : Prop :=
  ∃ s0, CInit s0 ∧ Relation.ReflTransGen CStep s0 s

/-- Inductive invariant: ids are below the allocator, at most one bet per
signature, the cache only maps a signature to the id of a bet with that
signature, and a thread that has finished (or is about to cache its
result) references a bet carrying its own signature. -/
def CInv (s : ConfSt) : Prop :=
  (∀ b ∈ s.bets, b.1 < s.nextId) ∧
  (∀ b1 ∈ s.bets, ∀ b2 ∈ s.bets, b1.2 = b2.2 → b1 = b2) ∧
  (∀ sig i, s.cache sig = some i → (i, sig) ∈ s.bets) ∧
  (∀ t ∈ s.threads, ∀ i,
    (t.pc = CPC.done i → (i, t.sig) ∈ s.bets) ∧
    (t.pc = CPC.writeCache i → (i, t.sig) ∈ s.bets))

theorem cstep_CInv {s s' : ConfSt} (hs : CInv s) (hstep : CStep s s') : CInv s' := by
  obtain ⟨h1, h2, h3, h4⟩ := hs
  cases hstep with
  | spawn sig =>
    refine ⟨h1, h2, h3, ?_⟩
    intro t ht i
    rcases List.mem_append.mp ht with h | h
    · exact h4 t h i
    · simp at h
      subst h
      exact ⟨fun hx => by simp at hx, fun hx => by simp at hx⟩
  | acquireOk n t ht hpc hl =>
    refine ⟨h1, h2, h3, ?_⟩
    intro t' ht' i
    rcases mem_setPC ht t' ht' with h | h
    · exact h4 t' h i
    · subst h
      exact ⟨fun hx => by simp at hx, fun hx => by simp at hx⟩
  | acquireBusy n t ht hpc hl =>
    refine ⟨h1, h2, h3, ?_⟩
    intro t' ht' i
    rcases mem_setPC ht t' ht' with h | h
    · exact h4 t' h i
    · subst h
      exact ⟨fun hx => by simp at hx, fun hx => by simp at hx⟩
  | dupHit n t i ht hpc hmem =>
    refine ⟨h1, h2, h3, ?_⟩
    intro t' ht' j
    rcases mem_setPC ht t' ht' with h | h
    · exact h4 t' h j
    · subst h
      refine ⟨fun hx => ?_, fun hx => by simp at hx⟩
      simp at hx
      subst hx
      exact hmem
  | dupMiss n t ht hpc hno =>
    refine ⟨h1, h2, h3, ?_⟩
    intro t' ht' i
    rcases mem_setPC ht t' ht' with h | h
    · exact h4 t' h i
    · subst h
      exact ⟨fun hx => by simp at hx, fun hx => by simp at hx⟩
  | cacheFetchOk n t i ht hpc hc hdb =>
    refine ⟨h1, h2, h3, ?_⟩
    intro t' ht' j
    rcases mem_setPC ht t' ht' with h | h
    · exact h4 t' h j
    · subst h
      refine ⟨fun hx => ?_, fun hx => by simp at hx⟩
      simp at hx
      subst hx
      exact h3 t.sig i hc
  | cacheFetchMiss n t i ht hpc hc hdb =>
    refine ⟨h1, h2, h3, ?_⟩
    intro t' ht' j
    rcases mem_setPC ht t' ht' with h | h
    · exact h4 t' h j
    · subst h
      exact ⟨fun hx => by simp at hx, fun hx => by simp at hx⟩
  | cacheMiss n t ht hpc hc =>
    refine ⟨h1, h2, h3, ?_⟩
    intro t' ht' i
    rcases mem_setPC ht t' ht' with h | h
    · exact h4 t' h i
    · subst h
      exact ⟨fun hx => by simp at hx, fun hx => by simp at hx⟩
  | roundOk n t ht hpc =>
    refine ⟨h1, h2, h3, ?_⟩
    intro t' ht' i
    rcases mem_setPC ht t' ht' with h | h
    · exact h4 t' h i
    · subst h
      exact ⟨fun hx => by simp at hx, fun hx => by simp at hx⟩
  | roundFail n t ht hpc =>
    refine ⟨h1, h2, h3, ?_⟩
    intro t' ht' i
    rcases mem_setPC ht t' ht' with h | h
    · exact h4 t' h i
    · subst h
      exact ⟨fun hx => by simp at hx, fun hx => by simp at hx⟩
  | chainOk n t ht hpc =>
    refine ⟨h1, h2, h3, ?_⟩
    intro t' ht' i
    rcases mem_setPC ht t' ht' with h | h
    · exact h4 t' h i
    · subst h
      exact ⟨fun hx => by simp at hx, fun hx => by simp at hx⟩
  | chainFail n t ht hpc =>
    refine ⟨h1, h2, h3, ?_⟩
    intro t' ht' i
    rcases mem_setPC ht t' ht' with h | h
    · exact h4 t' h i
    · subst h
      exact ⟨fun hx => by simp at hx, fun hx => by simp at hx⟩
  | createOk n t ht hpc hno =>
    refine ⟨?_, ?_, ?_, ?_⟩
    · intro b hb
      rcases List.mem_cons.mp hb with h | h
      · subst h; exact Nat.lt_succ_self _
      · exact Nat.lt_succ_of_lt (h1 b h)
    · intro b1 hb1 b2 hb2 hsig
      rcases List.mem_cons.mp hb1 with hA | hA <;> rcases List.mem_cons.mp hb2 with hB | hB
      · rw [hA, hB]
      · exact absurd (by rw [← hsig, hA]) (hno b2 hB)
      · exact absurd (by rw [hsig, hB]) (hno b1 hA)
      · exact h2 b1 hA b2 hB hsig
    · intro sig i hc
      exact List.mem_cons_of_mem _ (h3 sig i hc)
    · intro t' ht' i
      rcases mem_setPC ht t' ht' with h | h
      · exact ⟨fun hx => List.mem_cons_of_mem _ ((h4 t' h i).1 hx),
          fun hx => List.mem_cons_of_mem _ ((h4 t' h i).2 hx)⟩
      · subst h
        refine ⟨fun hx => by simp at hx, fun hx => ?_⟩
        simp at hx
        subst hx
        exact List.mem_cons_self _ _
  | createDup n t i ht hpc hmem =>
    refine ⟨h1, h2, ?_, ?_⟩
    · intro sig j hc
      simp at hc
      by_cases hk : sig = t.sig
      · subst hk
        rw [if_pos rfl] at hc
        cases hc
        exact hmem
      · rw [if_neg hk] at hc
        exact h3 sig j hc
    · intro t' ht' j
      rcases mem_setPC ht t' ht' with h | h
      · exact h4 t' h j
      · subst h
        refine ⟨fun hx => ?_, fun hx => by simp at hx⟩
        simp at hx
        subst hx
        exact hmem
  | writeCacheStep n t i ht hpc =>
    have hwc : (i, t.sig) ∈ s.bets := (h4 t (List.get?_mem ht) i).2 hpc
    refine ⟨h1, h2, ?_, ?_⟩
    · intro sig j hc
      simp at hc
      by_cases hk : sig = t.sig
      · subst hk
        rw [if_pos rfl] at hc
        cases hc
        exact hwc
      · rw [if_neg hk] at hc
        exact h3 sig j hc
    · intro t' ht' j
      rcases mem_setPC ht t' ht' with h | h
      · exact h4 t' h j
      · subst h
        refine ⟨fun hx => ?_, fun hx => by simp at hx⟩
        simp at hx
        subst hx
        exact hwc
  | lockExpire sig =>
    exact ⟨h1, h2, h3, h4⟩

theorem creach_CInv {s : ConfSt} (hs : CReach s) : CInv s := by
  obtain ⟨s0, ⟨hb, hc, hl, hth, hn⟩, hsteps⟩ := hs
  have h0 : CInv s0 := by
    refine ⟨?_, ?_, ?_, ?_⟩
    · intro b hbm; rw [hb] at hbm; simp at hbm
    · intro b1 hb1; rw [hb] at hb1; simp at hb1
    · intro sig i hci; rw [hc sig] at hci; cases hci
    · intro t htm; rw [hth] at htm; simp at htm
  induction hsteps with
  | refl => exact h0
  | tail _ hstep ih => exact cstep_CInv ih hstep



/-- C1: for every transaction signature, any interleaving of confirmBet
calls stores at most one Bet record for that signature; every call that
completes successfully returns that bet's id; and when Bet.create hits a
duplicate-key conflict the call re-fetches the existing Bet by signature
and completes successfully with its id instead of raising, leaving the
Bet collection unchanged. -/
theorem c1_confirm_idempotent :
    (∀ s, CReach s → ∀ i j sig, (i, sig) ∈ s.bets → (j, sig) ∈ s.bets → i = j) ∧
    (∀ s, CReach s → ∀ t ∈ s.threads, ∀ i, t.pc = CPC.done i → (i, t.sig) ∈ s.bets) ∧
    (∀ (s : ConfSt) (n : Nat) (t : CThread) (i : Nat),
      s.threads.get? n = some t → t.pc = CPC.create → (i, t.sig) ∈ s.bets →
      CStep s { s with
        cache := fun k => if k = t.sig then some i else s.cache k,
        threads := setPC s.threads n (CPC.done i) }) := by
  refine ⟨?_, ?_, ?_⟩
  · intro s hs i j sig hi hj
    have h := (creach_CInv hs).2.1 (i, sig) hi (j, sig) hj rfl
    exact congrArg Prod.fst h
  · intro s hs t ht i hpc
    exact ((creach_CInv hs).2.2.2 t ht i).1 hpc
  · intro s n t i ht hpc hmem
    exact CStep.createDup s n t i ht hpc hmem

def c1s0 : ConfSt :=
  { bets := [], cache := fun _ => none, locks := fun _ => false, threads := [], nextId := 0 }

def c1s1 : ConfSt := { c1s0 with threads := c1s0.threads ++ [⟨"tx1", CPC.start⟩] }

def c1s2 : ConfSt := { c1s1 with
  locks := fun k => if k = ("tx1" : String) then true else c1s1.locks k,
  threads := setPC c1s1.threads 0 CPC.checkRound }

def c1s3 : ConfSt := { c1s2 with threads := c1s2.threads ++ [⟨"tx1", CPC.start⟩] }

def c1s4 : ConfSt := { c1s3 with threads := setPC c1s3.threads 1 CPC.lookupDup }

def c1s5 : ConfSt := { c1s4 with threads := setPC c1s4.threads 0 CPC.pollChain }

def c1s6 : ConfSt := { c1s5 with threads := setPC c1s5.threads 0 CPC.create }

def c1s7 : ConfSt := { c1s6 with
  bets := (c1s6.nextId, ("tx1" : String)) :: c1s6.bets,
  nextId := c1s6.nextId + 1,
  threads := setPC c1s6.threads 0 (CPC.writeCache c1s6.nextId) }

def c1s8 : ConfSt := { c1s7 with
  cache := fun k => if k = ("tx1" : String) then some 0 else c1s7.cache k,
  threads := setPC c1s7.threads 0 (CPC.done 0) }

def c1s9 : ConfSt := { c1s8 with threads := setPC c1s8.threads 1 (CPC.done 0) }

theorem c1_reach : CReach c1s9 := by
  refine ⟨c1s0, ⟨rfl, fun _ => rfl, fun _ => rfl, rfl, rfl⟩, ?_⟩
  have h1 : CStep c1s0 c1s1 := CStep.spawn c1s0 ("tx1")
  have h2 : CStep c1s1 c1s2 := CStep.acquireOk c1s1 0 ⟨"tx1", CPC.start⟩ rfl rfl rfl
  have h3 : CStep c1s2 c1s3 := CStep.spawn c1s2 ("tx1")
  have h4 : CStep c1s3 c1s4 :=
    CStep.acquireBusy c1s3 1 ⟨"tx1", CPC.start⟩ rfl rfl (by decide)
  have h5 : CStep c1s4 c1s5 := CStep.roundOk c1s4 0 ⟨"tx1", CPC.checkRound⟩ rfl rfl
  have h6 : CStep c1s5 c1s6 := CStep.chainOk c1s5 0 ⟨"tx1", CPC.pollChain⟩ rfl rfl
  have h7 : CStep c1s6 c1s7 :=
    CStep.createOk c1s6 0 ⟨"tx1", CPC.create⟩ rfl rfl (fun b hb => nomatch hb)
  have h8 : CStep c1s7 c1s8 :=
    CStep.writeCacheStep c1s7 0 ⟨"tx1", CPC.writeCache 0⟩ 0 rfl rfl
  have h9 : CStep c1s8 c1s9 :=
    CStep.dupHit c1s8 1 ⟨"tx1", CPC.lookupDup⟩ 0 rfl rfl (List.mem_cons_self _ _)
  exact Relation.ReflTransGen.tail (Relation.ReflTransGen.tail
    (Relation.ReflTransGen.tail (Relation.ReflTransGen.tail
      (Relation.ReflTransGen.tail (Relation.ReflTransGen.tail
        (Relation.ReflTransGen.tail (Relation.ReflTransGen.tail
          (Relation.ReflTransGen.single h1) h2) h3) h4) h5) h6) h7) h8) h9

def c1sC : ConfSt :=
  { bets := [(0, "tx1")], cache := fun _ => none, locks := fun _ => false,
    threads := [⟨"tx1", CPC.create⟩], nextId := 1 }

/-- Witness for C1 at the concrete interleaving c1s0 → … → c1s9 (two
calls with signature tx1; the first creates bet 0, the second takes the
lock-held duplicate-lookup path), plus a duplicate-key create step from
the concrete state c1sC. -/
theorem c1_confirm_idempotent_witness :
    ((0 : Nat) = 0) ∧ ((0, ("tx1" : String)) ∈ c1s9.bets) ∧
    CStep c1sC { c1sC with
      cache := fun k => if k = ("tx1" : String) then some 0 else c1sC.cache k,
      threads := setPC c1sC.threads 0 (CPC.done 0) } :=
  ⟨c1_confirm_idempotent.1 c1s9 c1_reach 0 0 ("tx1")
      (List.mem_cons_self _ _) (List.mem_cons_self _ _),
   c1_confirm_idempotent.2.1 c1s9 c1_reach ⟨"tx1", CPC.done 0⟩
      (List.mem_cons_self _ _) 0 rfl,
   c1_confirm_idempotent.2.2 c1sC 0 ⟨"tx1", CPC.create⟩ 0 rfl rfl
      (List.mem_cons_self _ _)⟩

end Tokku
